import Mathlib

/-!
Verification development for the catalog synchronization engine of the
jobber-integrator repository (`app/sync.py`, `app/jobber_oauth.py`).

The Python source is shallowly embedded: pure helpers become Lean functions,
the stateful sync loop becomes explicit state passing over a `SyncState`,
remote HTTP calls become oracle functions supplied through an environment
record, Python `float` costs are modelled as rationals, and Python exceptions
become explicit `Except` / outcome constructors.  External collaborators
(the `requests` transport, `difflib.SequenceMatcher.ratio`, Python's `csv`
tokenizer and `float` builtin, the SQLite store, `datetime` parsing) are
modelled at their interfaces, as documented at each definition.
-/

namespace JobberSync

/-- A product node as returned by the paginated catalog queries
(`id`, `name`, optional `code`, optional `internalUnitCost`).
`internalUnitCost` is the value after `_parse_current_cost` in `sync.py`
(which is `None` when the field is missing or not numeric): JSON numeral
parsing itself is external, so the node carries `Option ℚ` directly. -/
structure CatalogNode where
  id : String
  name : String
  code : Option String
  internalUnitCost : Option ℚ
deriving DecidableEq, Repr

/-- Strip whitespace from both ends of a character list (the effect of
Python `str.strip`; ASCII whitespace, which is what the feeds carry). -/
def stripChars (l : List Char) : List Char :=
  ((l.dropWhile Char.isWhitespace).reverse.dropWhile Char.isWhitespace).reverse

/-- Model of Python `str.strip`. -/
def pyStrip (s : String) : String := ⟨stripChars s.data⟩

/-- Model of Python `str.lower` (ASCII case folding). -/
def pyLower (s : String) : String := ⟨s.data.map Char.toLower⟩

/-- Accumulate maximal nonempty runs of non-whitespace characters. -/
def tokensAux : List Char → List Char → List String
  | [], acc => if acc = [] then [] else [⟨acc.reverse⟩]
  | c :: rest, acc =>
    if c.isWhitespace then
      if acc = [] then tokensAux rest [] else ⟨acc.reverse⟩ :: tokensAux rest []
    else tokensAux rest (c :: acc)

/-- The whitespace-separated tokens of a string: the effect of
`re.split(r"\s+", ·)` on a stripped string, with empty tokens dropped. -/
def wsTokens (s : String) : List String := tokensAux s.data []

/-- Remove every occurrence of `pat`, scanning left to right (the effect of
Python `s.replace(pat, "")`); the fuel argument makes the recursion
structural. -/
def removeAllAux (pat : List Char) : ℕ → List Char → List Char
  | 0, _ => []
  | _, [] => []
  | fuel + 1, c :: rest =>
    if pat.isPrefixOf (c :: rest) ∧ pat ≠ [] then
      removeAllAux pat fuel (rest.drop (pat.length - 1))
    else c :: removeAllAux pat fuel rest

/-- Model of Python `s.replace(pat, "")`. -/
def removeStr (s pat : String) : String :=
  ⟨removeAllAux pat.data s.data.length s.data⟩

/-- `_name(node)` in `sync.py`: the stripped display name. -/
def nodeName (n : CatalogNode) : String := pyStrip n.name

/-- `(node.get("code") or "").strip()` in `sync.py`. -/
def nodeCode (n : CatalogNode) : String := pyStrip (n.code.getD "")

/-- `_normalize` in `sync.py`: lowercase, strip, collapse internal whitespace
runs to single spaces.  (Python lowercases and splits on Unicode whitespace;
the model uses ASCII case folding and whitespace, which agree on the ASCII
identifiers the feed carries.) -/
def normalizeStr (s : String) : String :=
  String.intercalate " " (wsTokens (pyLower (pyStrip s)))

/-- Token sorting inside `_fuzzy_score`: split the (already normalized) string
on whitespace and rejoin the tokens in sorted order. -/
def sortTokens (s : String) : String :=
  String.intercalate " " ((wsTokens s).mergeSort (fun a b => decide (a ≤ b)))

/-- `_fuzzy_score` in `sync.py`.  The final similarity measure
`difflib.SequenceMatcher(None, na, nb).ratio()` is an external library
routine; it is supplied as the oracle `ratio`.  The repository's own logic —
normalization, the empty-string short circuit, and token sorting — is
modelled here. -/
def fuzzyScore (ratio : String → String → ℚ) (a b : String) (tokSort : Bool) : ℚ :=
  let na := normalizeStr a
  let nb := normalizeStr b
  if na = "" ∨ nb = "" then 0
  else
    let na := if tokSort then sortTokens na else na
    let nb := if tokSort then sortTokens nb else nb
    ratio na nb

/-- The `MatchResult` quadruple returned by `_resolve_from_list`:
`(product id, current cost, fuzzy_used, jobber_name)`. -/
structure MatchResult where
  entryId : Option String
  currentCost : Option ℚ
  fuzzyUsed : Bool
  matchedName : String
deriving DecidableEq, Repr

/-- The exact pass of `_resolve_from_list`: first node whose normalized code
(when `match_by_code_first`) or normalized name equals the normalized sku. -/
def exactPass (sku : String) (products : List CatalogNode) (mbcf : Bool) :
    Option MatchResult :=
  match products with
  | [] => none
  | n :: rest =>
    if mbcf ∧ normalizeStr (nodeCode n) = normalizeStr sku then
      some ⟨some n.id, n.internalUnitCost, false, nodeName n⟩
    else if normalizeStr (nodeName n) = normalizeStr sku then
      some ⟨some n.id, n.internalUnitCost, false, nodeName n⟩
    else exactPass sku rest mbcf

/-- The per-candidate fuzzy score in `_resolve_from_list`:
`max` of the name score and (when `match_by_code_first` and the stripped code
is nonempty) the code score. -/
def candScore (ratio : String → String → ℚ) (sku : String) (mbcf : Bool)
    (n : CatalogNode) : ℚ :=
  let s1 := fuzzyScore ratio sku (nodeName n) true
  let code := if mbcf then nodeCode n else ""
  if code ≠ "" then max s1 (fuzzyScore ratio sku code true) else s1

/-- The mutable scan state of the fuzzy pass of `_resolve_from_list`:
`(best_id, best_cost, best_name, best_score, tie)`. -/
structure FzState where
  bestId : Option String
  bestCost : Option ℚ
  bestName : String
  bestScore : ℚ
  tie : Bool
deriving DecidableEq, Repr

/-- Initial fuzzy-scan state: `best_id = None`, `best_score = -1.0`, `tie = False`. -/
def fzInit : FzState := ⟨none, none, "", -1, false⟩

/-- One iteration of the fuzzy scan in `_resolve_from_list`: scores at or
above the threshold either replace the leader (clearing the tie flag) when
strictly higher, or set the tie flag when equal to the current best. -/
def fzStep (ratio : String → String → ℚ) (sku : String) (mbcf : Bool) (θ : ℚ)
    (st : FzState) (n : CatalogNode) : FzState :=
  let score := candScore ratio sku mbcf n
  if θ ≤ score then
    if st.bestScore < score then
      ⟨some n.id, n.internalUnitCost, nodeName n, score, false⟩
    else if score = st.bestScore then
      { st with tie := true }
    else st
  else st

/-- `_resolve_from_list` in `sync.py`: exact pass, then (unless `exact_only`
or the threshold is non-positive) the fuzzy scan; a fuzzy match is returned
only when a leader exists and no tie was recorded. -/
def resolveFromList (ratio : String → String → ℚ) (sku : String)
    (products : List CatalogNode) (mbcf exactOnly : Bool) (θ : ℚ) : MatchResult :=
  match exactPass sku products mbcf with
  | some r => r
  | none =>
    if exactOnly ∨ θ ≤ 0 then ⟨none, none, false, ""⟩
    else
      let out := products.foldl (fzStep ratio sku mbcf θ) fzInit
      match out.bestId with
      | some i => if out.tie then ⟨none, none, false, ""⟩
                  else ⟨some i, out.bestCost, true, out.bestName⟩
      | none => ⟨none, none, false, ""⟩

/-! ### Feed ingester (`parse_csv_from_bytes` in `sync.py`)

The byte-level front end (UTF-8-sig decoding, the `re.sub` quote repair and
`csv.reader` tokenization per RFC 4180) is external-library preprocessing;
the repository's own logic starts from `all_rows = list(full_reader)`, a list
of rows of string cells, which is the input type of the model. -/

/-- One parsed feed row `(part_num, cost, description)`. -/
structure FeedRow where
  identifier : String
  cost : ℚ
  description : String
deriving DecidableEq, Repr

/-- The two distinct `ValueError` conditions of `parse_csv_from_bytes`. -/
inductive ParseError
| missingColumns
| noValidRows
deriving DecidableEq, Repr

/-- The user-facing message attached to each `ValueError`. -/
def parseErrorMessage : ParseError → String
| .missingColumns => "CSV must contain columns Part_Num and Trade_Cost"
| .noValidRows => "No valid rows to process"

/-- Value of a digit list read in base 10 (helper for the `float` model). -/
def digitsVal (ds : List Char) : ℕ :=
  ds.foldl (fun a c => 10 * a + (c.toNat - 48)) 0

/-- Mantissa of a Python float literal: `digits`, `digits.`, `.digits` or
`digits.digits`; returns the digit value and the number of fraction digits. -/
def parseMantissa (l : List Char) : Option (ℕ × ℕ) :=
  let p := l.span Char.isDigit
  match p.2 with
  | [] => if p.1 = [] then none else some (digitsVal p.1, 0)
  | '.' :: fp =>
    if fp.all Char.isDigit ∧ (p.1 ≠ [] ∨ fp ≠ []) then
      some (digitsVal (p.1 ++ fp), fp.length)
    else none
  | _ => none

/-- Exponent part of a Python float literal (after the `e`). -/
def parseExponent (l : List Char) : Option ℤ :=
  let q := match l with
    | '-' :: r => (true, r)
    | '+' :: r => (false, r)
    | _ => (false, l)
  if q.2 ≠ [] ∧ q.2.all Char.isDigit then
    some (if q.1 then -(digitsVal q.2 : ℤ) else (digitsVal q.2 : ℤ))
  else none

/-- The discrete scan of a float literal: optional sign, mantissa, optional
exponent; returns `(negative, digit value, fraction length, exponent)`. -/
def pyFloatScan (cs : List Char) : Option (Bool × ℕ × ℕ × ℤ) :=
  let sgn := match cs with
    | '-' :: r => (true, r)
    | '+' :: r => (false, r)
    | _ => (false, cs)
  let parts := sgn.2.span (fun c => c ≠ 'e' ∧ c ≠ 'E')
  match parseMantissa parts.1 with
  | none => none
  | some (mv, fl) =>
    match parts.2 with
    | [] => some (sgn.1, mv, fl, 0)
    | _ :: rest =>
      match parseExponent rest with
      | none => none
      | some e => some (sgn.1, mv, fl, e)

/-- Model of Python's `float(s)` builtin restricted to finite decimal
literals with optional sign and exponent (the forms a cost column carries);
Python's `inf`/`nan` forms and digit-group underscores are outside the model.
Returns `none` exactly when Python raises `ValueError`. -/
def pyFloat (s : String) : Option ℚ :=
  (pyFloatScan s.data).map (fun q =>
    (if q.1 then (-1 : ℚ) else 1) * (q.2.1 : ℚ) * (10 : ℚ) ^ (q.2.2.2 - (q.2.2.1 : ℤ)))

/-- The two-character sequence `"Â£"` (U+00C2 U+00A3) that
`parse_csv_from_bytes` strips from the cost cell: the UTF-8 mojibake of a
double-encoded pound sign.  Note this is not the one-character `"£"`. -/
def poundMojibake : String := ⟨[Char.ofNat 0xC2, Char.ofNat 0xA3]⟩

/-- The plain one-character pound sign `"£"` (U+00A3). -/
def poundSign : String := ⟨[Char.ofNat 0xA3]⟩

/-- The cost-cell cleanup of `parse_csv_from_bytes`:
`trade_cost_raw.replace("Â£", "").replace(",", "").strip()`. -/
def cleanCost (s : String) : String :=
  pyStrip (removeStr (removeStr s poundMojibake) ",")

/-- Header-row predicate: the set of stripped cells contains both required
column names. -/
def isHeaderRow (row : List String) : Bool :=
  (row.map pyStrip).contains "Part_Num" && (row.map pyStrip).contains "Trade_Cost"

/-- Index of the first row containing both required columns
(the `header_idx` scan of `parse_csv_from_bytes`). -/
def findHeaderIdx (table : List (List String)) : Option ℕ :=
  table.findIdx? isHeaderRow

/-- Stripped field names of the header row. -/
def headerFields (table : List (List String)) (i : ℕ) : List String :=
  (table.getD i []).map pyStrip

/-- Body of the per-row loop of `parse_csv_from_bytes`: skip short rows, rows
with an empty identifier (the blank-line case included), and rows whose
cleaned cost fails numeric parsing; otherwise produce the row triple. -/
def processDataRow (pIdx tIdx : ℕ) (dIdx : Option ℕ) (row : List String) :
    Option FeedRow :=
  if row.length ≤ max pIdx tIdx then none
  else
    let part := pyStrip (row.getD pIdx "")
    let raw := pyStrip (row.getD tIdx "")
    let desc := match dIdx with
      | some di => if di < row.length then pyStrip (row.getD di "") else ""
      | none => ""
    if part = "" ∧ raw = "" then none
    else if part = "" then none
    else
      match pyFloat (cleanCost raw) with
      | some c => some ⟨part, c, desc⟩
      | none => none

/-- The valid rows extracted below header row `i`. -/
def validRowsFrom (table : List (List String)) (i : ℕ) : List FeedRow :=
  let fieldnames := headerFields table i
  let pIdx := fieldnames.indexOf "Part_Num"
  let tIdx := fieldnames.indexOf "Trade_Cost"
  let dIdx := if "Description" ∈ fieldnames then some (fieldnames.indexOf "Description")
              else none
  (table.drop (i + 1)).filterMap (processDataRow pIdx tIdx dIdx)

/-- `parse_csv_from_bytes` from the decoded-and-tokenized table onward:
locate the header, re-check the required columns (the source re-checks the
stripped field names), extract valid rows, and fail when none remain. -/
def parseCsvRows (table : List (List String)) : Except ParseError (List FeedRow) :=
  match findHeaderIdx table with
  | none => .error .missingColumns
  | some i =>
    let fieldnames := headerFields table i
    if ¬("Part_Num" ∈ fieldnames ∧ "Trade_Cost" ∈ fieldnames) then
      .error .missingColumns
    else
      let rows := validRowsFrom table i
      if rows = [] then .error .noValidRows else .ok rows

/-! ### Rounding (`round(x, 2)` in Python) -/

/-- Round a rational to the nearest integer, halves to the even neighbor:
the model of Python's `round` builtin (banker's rounding) on exact values. -/
def roundHalfEven (q : ℚ) : ℤ :=
  let f := ⌊q⌋
  let r := q - (f : ℚ)
  if r < 1 / 2 then f
  else if 1 / 2 < r then f + 1
  else if f % 2 = 0 then f else f + 1

/-- `round(x, 2)`: round to two decimal places. -/
def round2 (q : ℚ) : ℚ := ((roundHalfEven (q * 100) : ℤ) : ℚ) / 100

/-! ### Token lifecycle (`app/jobber_oauth.py`)

The credential store row (`get_connection_by_account_id`) and the token
endpoint (`refresh_access_token`) are collaborators, supplied as oracles.
`refresh_access_token` either raises (oracle value `none`) or returns the
rotated pair with an optional `expires_in` lifetime in seconds.  Timestamps
are whole seconds (`ℤ`); the ISO-8601 string round trip of the source is
external `datetime` parsing. -/

/-- A stored connection row: access token, refresh token, optional expiry.
`expiresAt = none` covers both a missing and an unparseable/empty
`access_token_expires_at` column. -/
structure ConnRow where
  accessToken : String
  refreshToken : String
  expiresAt : Option ℤ
deriving DecidableEq, Repr

/-- A successful token-endpoint response: rotated pair plus optional
`expires_in` lifetime (seconds). -/
structure RefreshData where
  accessToken : String
  refreshToken : String
  expiresIn : Option ℤ
deriving DecidableEq, Repr

/-- Environment of `get_valid_access_token`: the store, the token endpoint
(`none` models a raised exception), and the current time. -/
structure OAuthEnv where
  store : String → Option ConnRow
  refreshFn : String → Option RefreshData
  now : ℤ

/-- `REFRESH_BUFFER_SECONDS` in `jobber_oauth.py`. -/
def refreshBufferSeconds : ℤ := 120

/-- A persisted token triple, recording an `update_tokens` store write. -/
structure TokenRecord where
  accessToken : String
  refreshToken : String
  expiresAt : Option ℤ
deriving DecidableEq, Repr

/-- `get_valid_access_token` in `jobber_oauth.py`: returns the token outcome
(`Except` error = raised `ValueError`) together with the store write
performed, if any.  A failing inline refresh is swallowed by the source's
blanket `except ... pass` and the stored token is returned. -/
def getValidAccessToken (env : OAuthEnv) (accountId : String) :
    Except String String × Option TokenRecord :=
  match env.store accountId with
  | none => (.error "No connection for account; reconnect required", none)
  | some row =>
    if row.accessToken = "" ∨ row.refreshToken = "" then
      (.error "Missing tokens; reconnect required", none)
    else
      match row.expiresAt with
      | none => (.ok row.accessToken, none)
      | some exp =>
        if exp - env.now ≤ refreshBufferSeconds then
          match env.refreshFn row.refreshToken with
          | none => (.ok row.accessToken, none)
          | some d =>
            (.ok d.accessToken,
             some ⟨d.accessToken, d.refreshToken, d.expiresIn.map (fun e => env.now + e)⟩)
        else (.ok row.accessToken, none)

/-! ### Remote catalog client, page level (`_find_id_by_sku` in `sync.py`)

A wire call either times out (the `requests` exception, which nothing in
`sync.py` catches) or yields an HTTP status with a body that may fail JSON
decoding.  The GraphQL body is reduced to what the source inspects: the
`errors` flag and the `productOrServices` connection. -/

/-- One page connection: nodes plus `pageInfo`.  (The source's `edges`
fallback produces the same node list and is folded into `nodes`.) -/
structure PageConn where
  nodes : List CatalogNode
  hasNextPage : Bool
  endCursor : Option String
deriving Repr

/-- A decoded GraphQL body: whether `errors` is non-empty, and the
`productOrServices` connection (`none` when absent or null). -/
structure GqlBody where
  hasErrors : Bool
  conn : Option PageConn
deriving Repr

/-- One transport-level event for a wire call: a raised timeout /
connection exception, or a response with a status and an optionally
JSON-decodable body (`none` = malformed JSON). -/
inductive HttpEvent
| timeout
| resp (status : ℕ) (body : Option GqlBody)
deriving Repr

/-- How a call to `_find_id_by_sku` can escape: the `TokenExpiredError`
signal raised on 401, or an uncaught Python exception (network timeout). -/
inductive FindErr
| tokenExpired
| pyException
deriving DecidableEq, Repr

/-- The per-page node scan of `_find_id_by_sku`: first node whose stripped
code (when `match_by_code_first`) or stripped name equals the sku,
case-sensitively and without normalization. -/
def findInNodes (sku : String) (mbcf : Bool) :
    List CatalogNode → Option (String × Option ℚ × String)
  | [] => none
  | n :: rest =>
    if mbcf ∧ nodeCode n = sku then some (n.id, n.internalUnitCost, nodeName n)
    else if nodeName n = sku then some (n.id, n.internalUnitCost, nodeName n)
    else findInNodes sku mbcf rest

/-- `_find_id_by_sku` over a script of successive wire events, one per page
request.  Every failure other than a 401 and a transport exception collapses
to the not-found result `(None, None, "")`; a 401 raises the distinct
`TokenExpiredError`; a transport timeout propagates as an uncaught exception.
An exhausted script reads as a response with no further pages. -/
def findIdBySku (pages : List HttpEvent) (sku : String) (mbcf : Bool) :
    Except FindErr (Option (String × Option ℚ × String)) :=
  match pages with
  | [] => .ok none
  | e :: rest =>
    match e with
    | .timeout => .error .pyException
    | .resp status body =>
      if status = 401 then .error .tokenExpired
      else if status ≠ 200 then .ok none
      else
        match body with
        | none => .ok none
        | some b =>
          if b.hasErrors then .ok none
          else
            match b.conn with
            | none => .ok none
            | some conn =>
              match findInNodes sku mbcf conn.nodes with
              | some hit => .ok (some hit)
              | none =>
                if conn.hasNextPage then
                  match conn.endCursor with
                  | none => .ok none
                  | some c => if c = "" then .ok none else findIdBySku rest sku mbcf
                else .ok none

/-! ### Sync orchestrator (`run_sync` in `sync.py`)

The remote operations reach the loop through an environment of oracles
keyed by the bearer token in use, so a refreshed token can change an
operation's outcome.  An operation returns a value, reports unauthorized
(the 401 → `TokenExpiredError` signal), or raises an exception that nothing
catches (`RemoteOutcome.raise`, e.g. a transport timeout), in which case the
whole run escapes exceptionally.  Every remote call and credential refresh
performed by the batch loop is recorded in a trace of `CallEvent`s. -/

/-- Outcome of one remote operation as seen by the orchestrator. -/
inductive RemoteOutcome (α : Type)
| ok (a : α)
| unauthorized
| raise
deriving DecidableEq, Repr

/-- A recorded remote interaction of the batch loop. -/
inductive CallEvent
| findCall (token sku : String)
| refreshCall (refreshToken : String)
| updateCostCall (token nodeId : String) (cost : ℚ)
| updateCostPriceCall (token nodeId : String) (cost price : ℚ)
deriving DecidableEq, Repr

/-- Whether an event is one of the two mutations. -/
def isUpdateEvent : CallEvent → Bool
| .updateCostCall _ _ _ => true
| .updateCostPriceCall _ _ _ _ => true
| _ => false

/-- The oracle environment of a `run_sync` run. -/
structure SyncEnv where
  store : String → Option ConnRow
  refreshFn : String → Option RefreshData
  now : ℤ
  probe : String → RemoteOutcome Bool
  find : String → String → RemoteOutcome (Option (String × Option ℚ))
  updateCost : String → String → ℚ → RemoteOutcome Bool
  updateCostPrice : String → String → ℚ → ℚ → RemoteOutcome Bool
  fetchAll : String → RemoteOutcome (List CatalogNode)
  ratio : String → String → ℚ

/-- The token-lifecycle view of a sync environment. -/
def SyncEnv.oauth (env : SyncEnv) : OAuthEnv := ⟨env.store, env.refreshFn, env.now⟩

/-- The mutable state threaded through the batch loop: the current bearer
token and refresh token (rebound by `refresh_and_retry`) plus the result
accumulators of the `result` dict. -/
structure SyncState where
  token : String
  refreshTok : String
  updated : ℕ
  skusNotFound : List String
  skippedProtected : ℕ
  fuzzyMatchedCount : ℕ
  error : Option String
deriving DecidableEq, Repr

/-- `"Session expired; please reconnect to Jobber."` -/
def sessionExpiredMsg : String := "Session expired; please reconnect to Jobber."

/-- The terminal message set by `refresh_and_retry` when the refresh call
itself raises; the source interpolates the exception text, modelled fixed. -/
def refreshFailedMsg : String :=
  "Session expired; please reconnect to Jobber. (refresh failed)"

/-- `"Not connected; please connect to Jobber first."` -/
def notConnectedMsg : String := "Not connected; please connect to Jobber first."

/-- `refresh_and_retry` in `run_sync`: on a raised refresh (`none` from the
oracle) set the terminal error and yield `none`; otherwise rotate both
tokens (the source also persists them via `update_tokens` and rebinds the
request headers) and yield the new access token. -/
def refreshAndRetry (env : SyncEnv) (st : SyncState) : Option String × SyncState :=
  match env.refreshFn st.refreshTok with
  | none => (none, { st with error := some refreshFailedMsg })
  | some d =>
    (some d.accessToken, { st with token := d.accessToken, refreshTok := d.refreshToken })

/-- Result of one guarded phase of a row: continue with a value, break out of
the loop with the (error-carrying) state, or escape with an uncaught
exception. -/
inductive Phase (α : Type)
| next (st : SyncState) (a : α)
| stop (st : SyncState)
| raised
deriving Repr

/-- The resolution phase of one non-fuzzy row (`_find_id_by_sku` under the
`try/except TokenExpiredError` of `run_sync`): one refresh and one retry of
the same lookup on unauthorized; a failed refresh or a second unauthorized
breaks the loop with the terminal error set. -/
def findWithRetry (env : SyncEnv) (st : SyncState) (sku : String) :
    Phase (Option (String × Option ℚ)) × List CallEvent :=
  match env.find st.token sku with
  | .ok r => (.next st r, [.findCall st.token sku])
  | .raise => (.raised, [.findCall st.token sku])
  | .unauthorized =>
    match refreshAndRetry env st with
    | (none, st') => (.stop st', [.findCall st.token sku, .refreshCall st.refreshTok])
    | (some _, st') =>
      match env.find st'.token sku with
      | .ok r =>
        (.next st' r,
         [.findCall st.token sku, .refreshCall st.refreshTok, .findCall st'.token sku])
      | .raise =>
        (.raised,
         [.findCall st.token sku, .refreshCall st.refreshTok, .findCall st'.token sku])
      | .unauthorized =>
        (.stop { st' with error := some sessionExpiredMsg },
         [.findCall st.token sku, .refreshCall st.refreshTok, .findCall st'.token sku])

/-- The mutation phase under the same `try/except` retry discipline; the
operation and its trace event are functions of the bearer token, mirroring
the late-binding `update_fn` closure of the source. -/
def updateWithRetry (env : SyncEnv) (st : SyncState)
    (op : String → RemoteOutcome Bool) (ev : String → CallEvent) :
    Phase Bool × List CallEvent :=
  match op st.token with
  | .ok b => (.next st b, [ev st.token])
  | .raise => (.raised, [ev st.token])
  | .unauthorized =>
    match refreshAndRetry env st with
    | (none, st') => (.stop st', [ev st.token, .refreshCall st.refreshTok])
    | (some _, st') =>
      match op st'.token with
      | .ok b => (.next st' b, [ev st.token, .refreshCall st.refreshTok, ev st'.token])
      | .raise => (.raised, [ev st.token, .refreshCall st.refreshTok, ev st'.token])
      | .unauthorized =>
        (.stop { st' with error := some sessionExpiredMsg },
         [ev st.token, .refreshCall st.refreshTok, ev st'.token])

/-- The markup decision of the loop body (`apply_markup` branch): with a
positive markup, the combined mutation carries
`unit_price = round(cost * (1 + markup/100), 2)` (`_update_cost_and_price`
rounds the price once more when building the wire variables); otherwise the
cost-only mutation. -/
def chooseUpdateOp (env : SyncEnv) (markupVal : ℚ) (nodeId : String) (cost : ℚ) :
    (String → RemoteOutcome Bool) × (String → CallEvent) :=
  if 0 < markupVal then
    let unitPrice := round2 (cost * (1 + markupVal / 100))
    (fun tok => env.updateCostPrice tok nodeId cost (round2 unitPrice),
     fun tok => .updateCostPriceCall tok nodeId cost (round2 unitPrice))
  else
    (fun tok => env.updateCost tok nodeId cost,
     fun tok => .updateCostCall tok nodeId cost)

/-- The price-protection test of the loop body:
`only_increase_cost and current_cost is not None and cost <= current_cost`. -/
def protectionSkips (onlyInc : Bool) (cost : ℚ) (currentCost : Option ℚ) : Bool :=
  onlyInc && (match currentCost with
    | some c => decide (cost ≤ c)
    | none => false)

/-- The tail of a row after successful resolution: protection already
decided; run the chosen mutation with retry-once, then count the row as
updated or record its identifier as not found when the mutation failed. -/
def updatePhase (env : SyncEnv) (markupVal : ℚ) (st : SyncState)
    (identifier nodeId : String) (cost : ℚ) : Phase Unit × List CallEvent :=
  let p := chooseUpdateOp env markupVal nodeId cost
  match updateWithRetry env st p.1 p.2 with
  | (.raised, tr) => (.raised, tr)
  | (.stop st', tr) => (.stop st', tr)
  | (.next st' b, tr) =>
    if b then (.next { st' with updated := st'.updated + 1 } (), tr)
    else (.next { st' with skusNotFound := st'.skusNotFound ++ [identifier] } (), tr)

/-- One iteration of the non-fuzzy `run_sync` loop over `(sku, cost, _)`. -/
def stepRow (env : SyncEnv) (onlyInc : Bool) (markupVal : ℚ) (st : SyncState)
    (r : FeedRow) : Phase Unit × List CallEvent :=
  match findWithRetry env st r.identifier with
  | (.raised, tr) => (.raised, tr)
  | (.stop st', tr) => (.stop st', tr)
  | (.next st₁ none, tr) =>
    (.next { st₁ with skusNotFound := st₁.skusNotFound ++ [r.identifier] } (), tr)
  | (.next st₁ (some hit), tr) =>
    if protectionSkips onlyInc r.cost hit.2 then
      (.next { st₁ with skippedProtected := st₁.skippedProtected + 1 } (), tr)
    else
      let q := updatePhase env markupVal st₁ r.identifier hit.1 r.cost
      (q.1, tr ++ q.2)

/-- One iteration of the fuzzy `run_sync` loop: resolution is a pure lookup
in the materialized product list via `_resolve_from_list`, then the same
protection and mutation tail. -/
def stepRowFuzzy (env : SyncEnv) (products : List CatalogNode) (mbcf : Bool)
    (θ : ℚ) (onlyInc : Bool) (markupVal : ℚ) (st : SyncState) (r : FeedRow) :
    Phase Unit × List CallEvent :=
  let m := resolveFromList env.ratio r.identifier products mbcf false θ
  let st₁ := if m.fuzzyUsed then
    { st with fuzzyMatchedCount := st.fuzzyMatchedCount + 1 } else st
  match m.entryId with
  | none =>
    (.next { st₁ with skusNotFound := st₁.skusNotFound ++ [r.identifier] } (), [])
  | some nodeId =>
    if protectionSkips onlyInc r.cost m.currentCost then
      (.next { st₁ with skippedProtected := st₁.skippedProtected + 1 } (), [])
    else updatePhase env markupVal st₁ r.identifier nodeId r.cost

/-- The non-fuzzy batch loop: check the `result["error"]` guard at the top of
each iteration, then run the row; a `stop` is the source's `break`, a
`raised` escape aborts the run exceptionally. -/
def runRows (env : SyncEnv) (onlyInc : Bool) (markupVal : ℚ) :
    SyncState → List FeedRow → Except Unit SyncState × List CallEvent
  | st, [] => (.ok st, [])
  | st, r :: rest =>
    if st.error.isSome then (.ok st, [])
    else
      match stepRow env onlyInc markupVal st r with
      | (.raised, tr) => (.error (), tr)
      | (.stop st', tr) => (.ok st', tr)
      | (.next st' _, tr) =>
        let q := runRows env onlyInc markupVal st' rest
        (q.1, tr ++ q.2)

/-- The fuzzy batch loop, same control shape over `stepRowFuzzy`. -/
def runRowsFuzzy (env : SyncEnv) (products : List CatalogNode) (mbcf : Bool)
    (θ : ℚ) (onlyInc : Bool) (markupVal : ℚ) :
    SyncState → List FeedRow → Except Unit SyncState × List CallEvent
  | st, [] => (.ok st, [])
  | st, r :: rest =>
    if st.error.isSome then (.ok st, [])
    else
      match stepRowFuzzy env products mbcf θ onlyInc markupVal st r with
      | (.raised, tr) => (.error (), tr)
      | (.stop st', tr) => (.ok st', tr)
      | (.next st' _, tr) =>
        let q := runRowsFuzzy env products mbcf θ onlyInc markupVal st' rest
        (q.1, tr ++ q.2)

/-- The result dict of `run_sync`. -/
structure SyncResult where
  updated : ℕ
  skusNotFound : List String
  skippedProtected : ℕ
  fuzzyMatchedCount : ℕ
  markupPercent : ℚ
  error : Option String
deriving DecidableEq, Repr

/-- Project the loop state onto the returned result dict. -/
def stateToResult (markupVal : ℚ) (st : SyncState) : SyncResult :=
  ⟨st.updated, st.skusNotFound, st.skippedProtected, st.fuzzyMatchedCount,
   markupVal, st.error⟩

/-- The loop state at entry to the batch. -/
def initState (token refreshTok : String) : SyncState :=
  ⟨token, refreshTok, 0, [], 0, 0, none⟩

/-- The clamped markup value:
`0.0 if markup_percent is None else max(0.0, float(markup_percent))`. -/
def clampMarkup : Option ℚ → ℚ
| none => 0
| some m => max 0 m

/-- `run_sync` in `sync.py`: credential lookup, token acquisition, capability
probe, then the batch loop (fuzzy or not), with the materialization of the
product list itself under the refresh-and-retry-once discipline in the fuzzy
path.  The returned value is the result dict, or an exceptional escape when
an uncaught exception (e.g. a transport timeout) crosses `run_sync`. -/
def runSync (env : SyncEnv) (accountId : String) (rows : List FeedRow)
    (onlyIncreaseCost fuzzyMatch : Bool) (fuzzyThreshold : ℚ)
    (markupPercent : Option ℚ) : Except Unit SyncResult × List CallEvent :=
  let markupVal := clampMarkup markupPercent
  let base : SyncResult := ⟨0, [], 0, 0, markupVal, none⟩
  match env.store accountId with
  | none => (.ok { base with error := some notConnectedMsg }, [])
  | some connRow =>
    match (getValidAccessToken env.oauth accountId).1 with
    | .error e => (.ok { base with error := some e }, [])
    | .ok token =>
      match env.probe token with
      | .raise => (.error (), [])
      | .unauthorized => (.ok { base with error := some sessionExpiredMsg }, [])
      | .ok mbcf =>
        let st₀ := initState token connRow.refreshToken
        if fuzzyMatch then
          let θ := max 0 (min 1 fuzzyThreshold)
          match env.fetchAll st₀.token with
          | .raise => (.error (), [])
          | .ok products =>
            let q := runRowsFuzzy env products mbcf θ onlyIncreaseCost markupVal st₀ rows
            (q.1.map (stateToResult markupVal), q.2)
          | .unauthorized =>
            match refreshAndRetry env st₀ with
            | (none, st') =>
              (.ok (stateToResult markupVal st'), [.refreshCall st₀.refreshTok])
            | (some _, st') =>
              match env.fetchAll st'.token with
              | .raise => (.error (), [.refreshCall st₀.refreshTok])
              | .unauthorized =>
                (.ok (stateToResult markupVal { st' with error := some sessionExpiredMsg }),
                 [.refreshCall st₀.refreshTok])
              | .ok products =>
                let q := runRowsFuzzy env products mbcf θ onlyIncreaseCost markupVal st' rows
                (q.1.map (stateToResult markupVal), .refreshCall st₀.refreshTok :: q.2)
        else
          let q := runRows env onlyIncreaseCost markupVal st₀ rows
          (q.1.map (stateToResult markupVal), q.2)

/-! ### Preview classification (`run_sync_preview` in `sync.py`) -/

/-- The per-row class assigned by the preview loop. -/
inductive PreviewClass
| increase
| decrease
| unchanged
deriving DecidableEq, Repr

/-- The increase/decrease/unchanged classification of a resolved preview
row: an absent current cost is compared as the effective value `0`. -/
def previewClassify (cost : ℚ) (currentCost : Option ℚ) : PreviewClass :=
  let eff := match currentCost with
    | some c => c
    | none => 0
  if eff < cost then .increase
  else if cost < eff then .decrease
  else .unchanged

/-! ### Connecting the page-level client to the orchestrator oracles -/

/-- Present a scripted `_find_id_by_sku` call as the orchestrator-level
outcome of the resolution oracle: `TokenExpiredError` becomes the
unauthorized signal, an uncaught transport exception the exceptional escape,
and the returned triple is narrowed to the `(node_id, current_cost)` pair the
sync loop destructures. -/
def findOutcomeOfPages (pages : List HttpEvent) (sku : String) (mbcf : Bool) :
    RemoteOutcome (Option (String × Option ℚ)) :=
  match findIdBySku pages sku mbcf with
  | .error .tokenExpired => .unauthorized
  | .error .pyException => .raise
  | .ok r => .ok (r.map (fun t => (t.1, t.2.1)))

/-! ### Derived views of the fuzzy scan used in statements -/

/-- The complete fuzzy scan of `_resolve_from_list` as a fold. -/
def fzFold (ratio : String → String → ℚ) (sku : String) (mbcf : Bool) (θ : ℚ)
    (products : List CatalogNode) : FzState :=
  products.foldl (fzStep ratio sku mbcf θ) fzInit

/-- The best similarity score over all candidates (`-1` on an empty list,
matching the scan's initial `best_score`). -/
def bestScore (ratio : String → String → ℚ) (sku : String) (mbcf : Bool)
    (products : List CatalogNode) : ℚ :=
  (products.map (candScore ratio sku mbcf)).foldl max (-1)

/-! ### Concrete sample inputs used by witnesses and counterexamples -/

/-- A similarity oracle for concrete scenarios: `1` for equal strings,
`1/2` otherwise (any function in `[0,1]` works; the theorems quantify over
the oracle). -/
def sampleRatio : String → String → ℚ := fun a b => if a = b then 1 else 1 / 2

/-- A store holding one healthy connection for account `"acc"`. -/
def sampleStore : String → Option ConnRow :=
  fun a => if a = "acc" then some ⟨"at", "rt", none⟩ else none

/-- A sync environment in which every remote call succeeds: the probe
reports no code capability, resolution finds node `"id-1"` at current cost
`10`, and both mutations succeed. -/
def sampleSyncEnv : SyncEnv where
  store := sampleStore
  refreshFn := fun _ => none
  now := 0
  probe := fun _ => .ok false
  find := fun _ _ => .ok (some ("id-1", some 10))
  updateCost := fun _ _ _ => .ok true
  updateCostPrice := fun _ _ _ _ => .ok true
  fetchAll := fun _ => .ok []
  ratio := sampleRatio

/-- Like `sampleSyncEnv` but the credential has expired: every resolution
call under token `"at"` reports unauthorized, and the token endpoint also
fails, so the first row hits the terminal session-expiry path. -/
def sampleExpiredEnv : SyncEnv :=
  { sampleSyncEnv with
    find := fun tok _ => if tok = "at" then .unauthorized else .ok (some ("id-9", none)) }

/-- Like `sampleSyncEnv` but the cost-only mutation reports a logical
failure (`userErrors` non-empty), so a resolved row is recorded as
not found. -/
def sampleUpdateFailEnv : SyncEnv :=
  { sampleSyncEnv with updateCost := fun _ _ _ => .ok false }

/-- Like `sampleSyncEnv` but the first resolution call times out at the
transport level, which nothing in `run_sync` catches. -/
def sampleTimeoutEnv : SyncEnv :=
  { sampleSyncEnv with find := fun _ sku => findOutcomeOfPages [.timeout] sku false }

/-- Like `sampleSyncEnv` but resolution is driven by the page-level client
over a single 500-status page, so every lookup degrades to not found. -/
def sampleNotFoundEnv : SyncEnv :=
  { sampleSyncEnv with find := fun _ sku => findOutcomeOfPages [.resp 500 none] sku false }

/-- A degenerate similarity oracle scoring every pair `1`, used to exhibit
fuzzy ties. -/
def constRatio : String → String → ℚ := fun _ _ => 1

/-- Two catalog entries whose names both score `1` against an unrelated
identifier under `constRatio`: a perfect tie. -/
def tieNodes : List CatalogNode :=
  [⟨"id-1", "Pipe A", some "", some 1⟩, ⟨"id-2", "Pipe B", some "", some 2⟩]

/-- An OAuth environment with one stored credential carrying an expiry
timestamp, and a working token endpoint. -/
def sampleOAuthEnv : OAuthEnv where
  store := fun a => if a = "acc" then some ⟨"at", "rt", some 100⟩ else none
  refreshFn := fun _ => some ⟨"at2", "rt2", some 3600⟩
  now := 0

/-! ## Helper lemmas -/

/-- Rounding an integer-valued rational is the identity. -/
theorem roundHalfEven_intCast (n : ℤ) : roundHalfEven (n : ℚ) = n := by
  unfold roundHalfEven
  simp only [Int.floor_intCast, sub_self]
  norm_num

/-- Two-decimal rounding is idempotent. -/
theorem round2_idem (q : ℚ) : round2 (round2 q) = round2 q := by
  unfold round2
  rw [div_mul_cancel₀ _ (by norm_num : (100 : ℚ) ≠ 0), roundHalfEven_intCast]

/-- A loop break (`Phase.stop`) out of the resolution phase always carries a
set terminal error. -/
theorem findWithRetry_stop_error (env : SyncEnv) (st : SyncState) (sku : String)
    (st' : SyncState) (tr : List CallEvent)
    (h : findWithRetry env st sku = (.stop st', tr)) : st'.error.isSome := by
  cases hf : env.find st.token sku with
  | ok r => simp [findWithRetry, hf] at h
  | raise => simp [findWithRetry, hf] at h
  | unauthorized =>
    cases hr : env.refreshFn st.refreshTok with
    | none =>
      simp [findWithRetry, refreshAndRetry, hf, hr] at h
      obtain ⟨h1, -⟩ := h
      subst h1
      simp
    | some d =>
      cases hg : env.find d.accessToken sku with
      | ok r => simp [findWithRetry, refreshAndRetry, hf, hr, hg] at h
      | raise => simp [findWithRetry, refreshAndRetry, hf, hr, hg] at h
      | unauthorized =>
        simp [findWithRetry, refreshAndRetry, hf, hr, hg] at h
        obtain ⟨h1, -⟩ := h
        subst h1
        simp

/-- A loop break out of the mutation phase always carries a set terminal
error. -/
theorem updateWithRetry_stop_error (env : SyncEnv) (st : SyncState)
    (op : String → RemoteOutcome Bool) (ev : String → CallEvent)
    (st' : SyncState) (tr : List CallEvent)
    (h : updateWithRetry env st op ev = (.stop st', tr)) : st'.error.isSome := by
  cases hf : op st.token with
  | ok b => simp [updateWithRetry, hf] at h
  | raise => simp [updateWithRetry, hf] at h
  | unauthorized =>
    cases hr : env.refreshFn st.refreshTok with
    | none =>
      simp [updateWithRetry, refreshAndRetry, hf, hr] at h
      obtain ⟨h1, -⟩ := h
      subst h1
      simp
    | some d =>
      cases hg : op d.accessToken with
      | ok b => simp [updateWithRetry, refreshAndRetry, hf, hr, hg] at h
      | raise => simp [updateWithRetry, refreshAndRetry, hf, hr, hg] at h
      | unauthorized =>
        simp [updateWithRetry, refreshAndRetry, hf, hr, hg] at h
        obtain ⟨h1, -⟩ := h
        subst h1
        simp

/-- A loop break out of the mutation tail of a row carries a set error. -/
theorem updatePhase_stop_error (env : SyncEnv) (mv : ℚ) (st : SyncState)
    (idf nid : String) (c : ℚ) (st' : SyncState) (tr : List CallEvent)
    (h : updatePhase env mv st idf nid c = (.stop st', tr)) : st'.error.isSome := by
  rcases hq : updateWithRetry env st (chooseUpdateOp env mv nid c).1
      (chooseUpdateOp env mv nid c).2 with ⟨ph, tr₂⟩
  cases ph with
  | raised => simp [updatePhase, hq] at h
  | stop st₂ =>
    simp [updatePhase, hq] at h
    obtain ⟨h1, -⟩ := h
    subst h1
    exact updateWithRetry_stop_error _ _ _ _ _ _ hq
  | next st₂ b =>
    cases b <;> simp [updatePhase, hq] at h

/-- A loop break out of a non-fuzzy row step carries a set error. -/
theorem stepRow_stop_error (env : SyncEnv) (oi : Bool) (mv : ℚ) (st : SyncState)
    (r : FeedRow) (st' : SyncState) (tr : List CallEvent)
    (h : stepRow env oi mv st r = (.stop st', tr)) : st'.error.isSome := by
  rcases hf : findWithRetry env st r.identifier with ⟨ph, tr₁⟩
  cases ph with
  | raised => simp [stepRow, hf] at h
  | stop st₁ =>
    simp [stepRow, hf] at h
    obtain ⟨h1, -⟩ := h
    subst h1
    exact findWithRetry_stop_error _ _ _ _ _ hf
  | next st₁ res =>
    cases res with
    | none => simp [stepRow, hf] at h
    | some hit =>
      by_cases hp : protectionSkips oi r.cost hit.2 = true
      · simp [stepRow, hf, hp] at h
      · simp only [stepRow, hf, hp, if_false, Bool.false_eq_true, if_neg] at h
        rcases hu : updatePhase env mv st₁ r.identifier hit.1 r.cost with ⟨ph₂, tr₂⟩
        rw [hu] at h
        cases ph₂ with
        | raised => simp at h
        | next st₂ a => simp at h
        | stop st₂ =>
          simp at h
          obtain ⟨h1, -⟩ := h
          subst h1
          exact updatePhase_stop_error _ _ _ _ _ _ _ _ hu

/-- A loop break out of a fuzzy row step carries a set error. -/
theorem stepRowFuzzy_stop_error (env : SyncEnv) (products : List CatalogNode)
    (mbcf : Bool) (θ : ℚ) (oi : Bool) (mv : ℚ) (st : SyncState) (r : FeedRow)
    (st' : SyncState) (tr : List CallEvent)
    (h : stepRowFuzzy env products mbcf θ oi mv st r = (.stop st', tr)) :
    st'.error.isSome := by
  cases hm : (resolveFromList env.ratio r.identifier products mbcf false θ).entryId with
  | none => simp [stepRowFuzzy, hm] at h
  | some nid =>
    by_cases hp : protectionSkips oi r.cost
        (resolveFromList env.ratio r.identifier products mbcf false θ).currentCost = true
    · simp [stepRowFuzzy, hm, hp] at h
    · simp only [stepRowFuzzy, hm, hp, Bool.false_eq_true, if_neg, if_false] at h
      exact updatePhase_stop_error _ _ _ _ _ _ _ _ h

/-- With the terminal error already set, the batch loop does nothing. -/
theorem runRows_error_state (env : SyncEnv) (oi : Bool) (mv : ℚ) (st : SyncState)
    (rows : List FeedRow) (h : st.error.isSome) :
    runRows env oi mv st rows = (.ok st, []) := by
  cases rows with
  | nil => rfl
  | cons r rest => simp [runRows, h]

/-- The non-fuzzy batch loop splits over list append. -/
theorem runRows_append (env : SyncEnv) (oi : Bool) (mv : ℚ)
    (l₁ l₂ : List FeedRow) (st : SyncState) :
    runRows env oi mv st (l₁ ++ l₂) =
      match runRows env oi mv st l₁ with
      | (.error e, tr) => (.error e, tr)
      | (.ok st₁, tr) =>
        ((runRows env oi mv st₁ l₂).1, tr ++ (runRows env oi mv st₁ l₂).2) := by
  induction l₁ generalizing st with
  | nil =>
    simp [runRows]
  | cons r rest ih =>
    by_cases hs : st.error.isSome
    · rw [List.cons_append]
      simp only [runRows, if_pos hs]
      rw [runRows_error_state env oi mv st l₂ hs]
      simp
    · rw [List.cons_append]
      simp only [runRows, if_neg hs]
      rcases hq : stepRow env oi mv st r with ⟨ph, tr⟩
      cases ph with
      | raised => rfl
      | stop st' =>
        have herr := stepRow_stop_error _ _ _ _ _ _ _ hq
        simp [runRows_error_state env oi mv st' l₂ herr]
      | next st' a =>
        dsimp only
        rw [ih st']
        rcases hq₂ : runRows env oi mv st' rest with ⟨res, tr₂⟩
        cases res <;> simp [List.append_assoc]

/-! ### Trace-shape lemmas -/

/-- Every event of the resolution phase is a lookup or a refresh. -/
theorem findWithRetry_trace (env : SyncEnv) (st : SyncState) (sku : String)
    (e : CallEvent) (he : e ∈ (findWithRetry env st sku).2) :
    (∃ t s, e = .findCall t s) ∨ (∃ rt, e = .refreshCall rt) := by
  cases hf : env.find st.token sku with
  | ok r =>
    simp [findWithRetry, hf] at he
    exact .inl ⟨_, _, he⟩
  | raise =>
    simp [findWithRetry, hf] at he
    exact .inl ⟨_, _, he⟩
  | unauthorized =>
    cases hr : env.refreshFn st.refreshTok with
    | none =>
      simp [findWithRetry, refreshAndRetry, hf, hr] at he
      rcases he with he | he
      · exact .inl ⟨_, _, he⟩
      · exact .inr ⟨_, he⟩
    | some d =>
      cases hg : env.find d.accessToken sku <;>
        · simp [findWithRetry, refreshAndRetry, hf, hr, hg] at he
          rcases he with he | he | he
          · exact .inl ⟨_, _, he⟩
          · exact .inr ⟨_, he⟩
          · exact .inl ⟨_, _, he⟩

/-- Every event of the mutation phase is the chosen operation's event at
some token, or a refresh. -/
theorem updateWithRetry_trace (env : SyncEnv) (st : SyncState)
    (op : String → RemoteOutcome Bool) (ev : String → CallEvent)
    (e : CallEvent) (he : e ∈ (updateWithRetry env st op ev).2) :
    (∃ t, e = ev t) ∨ (∃ rt, e = .refreshCall rt) := by
  cases hf : op st.token with
  | ok b =>
    simp [updateWithRetry, hf] at he
    exact .inl ⟨_, he⟩
  | raise =>
    simp [updateWithRetry, hf] at he
    exact .inl ⟨_, he⟩
  | unauthorized =>
    cases hr : env.refreshFn st.refreshTok with
    | none =>
      simp [updateWithRetry, refreshAndRetry, hf, hr] at he
      rcases he with he | he
      · exact .inl ⟨_, he⟩
      · exact .inr ⟨_, he⟩
    | some d =>
      cases hg : op d.accessToken <;>
        · simp [updateWithRetry, refreshAndRetry, hf, hr, hg] at he
          rcases he with he | he | he
          · exact .inl ⟨_, he⟩
          · exact .inr ⟨_, he⟩
          · exact .inl ⟨_, he⟩

/-- Every event of the mutation tail is the chosen operation's event at some
token, or a refresh. -/
theorem updatePhase_trace (env : SyncEnv) (mv : ℚ) (st : SyncState)
    (idf nid : String) (c : ℚ) (e : CallEvent)
    (he : e ∈ (updatePhase env mv st idf nid c).2) :
    (∃ t, e = (chooseUpdateOp env mv nid c).2 t) ∨ (∃ rt, e = .refreshCall rt) := by
  rcases hq : updateWithRetry env st (chooseUpdateOp env mv nid c).1
      (chooseUpdateOp env mv nid c).2 with ⟨ph, tr₂⟩
  have hmem : e ∈ tr₂ → e ∈ (updateWithRetry env st (chooseUpdateOp env mv nid c).1
      (chooseUpdateOp env mv nid c).2).2 := by
    intro hx
    rw [hq]
    exact hx
  cases ph with
  | raised =>
    simp [updatePhase, hq] at he
    exact updateWithRetry_trace _ _ _ _ _ (hmem he)
  | stop st₂ =>
    simp [updatePhase, hq] at he
    exact updateWithRetry_trace _ _ _ _ _ (hmem he)
  | next st₂ b =>
    cases b <;> simp [updatePhase, hq] at he <;>
      exact updateWithRetry_trace _ _ _ _ _ (hmem he)

/-- Every event of a non-fuzzy row step is a lookup, a refresh, or the
chosen mutation's event for that row's cost at some node and token. -/
theorem stepRow_trace (env : SyncEnv) (oi : Bool) (mv : ℚ) (st : SyncState)
    (r : FeedRow) (e : CallEvent) (he : e ∈ (stepRow env oi mv st r).2) :
    (∃ t s, e = .findCall t s) ∨ (∃ rt, e = .refreshCall rt) ∨
    (∃ nid t, e = (chooseUpdateOp env mv nid r.cost).2 t) := by
  rcases hf : findWithRetry env st r.identifier with ⟨ph, tr₁⟩
  have htr₁ : e ∈ tr₁ → (∃ t s, e = CallEvent.findCall t s) ∨
      (∃ rt, e = CallEvent.refreshCall rt) := by
    intro hx
    exact findWithRetry_trace env st r.identifier e (by rw [hf]; exact hx)
  cases ph with
  | raised =>
    simp [stepRow, hf] at he
    rcases htr₁ he with h | h
    · exact .inl h
    · exact .inr (.inl h)
  | stop st₁ =>
    simp [stepRow, hf] at he
    rcases htr₁ he with h | h
    · exact .inl h
    · exact .inr (.inl h)
  | next st₁ res =>
    cases res with
    | none =>
      simp [stepRow, hf] at he
      rcases htr₁ he with h | h
      · exact .inl h
      · exact .inr (.inl h)
    | some hit =>
      by_cases hp : protectionSkips oi r.cost hit.2 = true
      · simp [stepRow, hf, hp] at he
        rcases htr₁ he with h | h
        · exact .inl h
        · exact .inr (.inl h)
      · simp only [stepRow, hf, hp, Bool.false_eq_true, if_neg, if_false] at he
        rw [List.mem_append] at he
        rcases he with he | he
        · rcases htr₁ he with h | h
          · exact .inl h
          · exact .inr (.inl h)
        · rcases updatePhase_trace env mv st₁ r.identifier hit.1 r.cost e he with h | h
          · exact .inr (.inr ⟨hit.1, h⟩)
          · exact .inr (.inl h)

/-- Every event of a fuzzy row step is a refresh or the chosen mutation's
event for that row's cost at some node and token. -/
theorem stepRowFuzzy_trace (env : SyncEnv) (products : List CatalogNode)
    (mbcf : Bool) (θ : ℚ) (oi : Bool) (mv : ℚ) (st : SyncState) (r : FeedRow)
    (e : CallEvent) (he : e ∈ (stepRowFuzzy env products mbcf θ oi mv st r).2) :
    (∃ rt, e = .refreshCall rt) ∨
    (∃ nid t, e = (chooseUpdateOp env mv nid r.cost).2 t) := by
  cases hm : (resolveFromList env.ratio r.identifier products mbcf false θ).entryId with
  | none => simp [stepRowFuzzy, hm] at he
  | some nid =>
    by_cases hp : protectionSkips oi r.cost
        (resolveFromList env.ratio r.identifier products mbcf false θ).currentCost = true
    · simp [stepRowFuzzy, hm, hp] at he
    · simp only [stepRowFuzzy, hm, hp, Bool.false_eq_true, if_neg, if_false] at he
      rcases updatePhase_trace env mv _ r.identifier nid r.cost e he with h | h
      · exact .inr ⟨nid, h⟩
      · exact .inl h

/-- Lift a per-step trace property through the non-fuzzy batch loop. -/
theorem runRows_trace (env : SyncEnv) (oi : Bool) (mv : ℚ)
    (P : CallEvent → Prop)
    (hstep : ∀ st r e, e ∈ (stepRow env oi mv st r).2 → P e) :
    ∀ rows st e, e ∈ (runRows env oi mv st rows).2 → P e := by
  intro rows
  induction rows with
  | nil => intro st e he; simp [runRows] at he
  | cons r rest ih =>
    intro st e he
    by_cases hs : st.error.isSome
    · simp [runRows, hs] at he
    · simp only [runRows, if_neg hs] at he
      rcases hq : stepRow env oi mv st r with ⟨ph, tr⟩
      rw [hq] at he
      have htr : ∀ x ∈ tr, P x := by
        intro x hx
        exact hstep st r x (by rw [hq]; exact hx)
      cases ph with
      | raised => exact htr e (by simpa using he)
      | stop st' => exact htr e (by simpa using he)
      | next st' a =>
        simp only at he
        rw [List.mem_append] at he
        rcases he with he | he
        · exact htr e he
        · exact ih st' e he

/-- Lift a per-step trace property through the fuzzy batch loop. -/
theorem runRowsFuzzy_trace (env : SyncEnv) (products : List CatalogNode)
    (mbcf : Bool) (θ : ℚ) (oi : Bool) (mv : ℚ) (P : CallEvent → Prop)
    (hstep : ∀ st r e, e ∈ (stepRowFuzzy env products mbcf θ oi mv st r).2 → P e) :
    ∀ rows st e, e ∈ (runRowsFuzzy env products mbcf θ oi mv st rows).2 → P e := by
  intro rows
  induction rows with
  | nil => intro st e he; simp [runRowsFuzzy] at he
  | cons r rest ih =>
    intro st e he
    by_cases hs : st.error.isSome
    · simp [runRowsFuzzy, hs] at he
    · simp only [runRowsFuzzy, if_neg hs] at he
      rcases hq : stepRowFuzzy env products mbcf θ oi mv st r with ⟨ph, tr⟩
      rw [hq] at he
      have htr : ∀ x ∈ tr, P x := by
        intro x hx
        exact hstep st r x (by rw [hq]; exact hx)
      cases ph with
      | raised => exact htr e (by simpa using he)
      | stop st' => exact htr e (by simpa using he)
      | next st' a =>
        simp only at he
        rw [List.mem_append] at he
        rcases he with he | he
        · exact htr e he
        · exact ih st' e he

/-- The event of a positive-markup mutation: the combined call carrying
`round(cost * (1 + markup/100), 2)`. -/
theorem chooseUpdateOp_ev_pos (env : SyncEnv) (mv : ℚ) (nid : String) (c : ℚ)
    (t : String) (h : 0 < mv) :
    (chooseUpdateOp env mv nid c).2 t =
      .updateCostPriceCall t nid c (round2 (c * (1 + mv / 100))) := by
  simp [chooseUpdateOp, h, round2_idem]

/-- The event of a zero/negative-markup mutation: the cost-only call. -/
theorem chooseUpdateOp_ev_nonpos (env : SyncEnv) (mv : ℚ) (nid : String) (c : ℚ)
    (t : String) (h : ¬ 0 < mv) :
    (chooseUpdateOp env mv nid c).2 t = .updateCostCall t nid c := by
  simp [chooseUpdateOp, h]

/-- Lift trace properties of the two row steps (and of refresh events) to
the whole of `runSync`. -/
theorem runSync_trace (env : SyncEnv) (accountId : String) (rows : List FeedRow)
    (oi fz : Bool) (θ : ℚ) (mp : Option ℚ) (P : CallEvent → Prop)
    (hrefresh : ∀ rt, P (.refreshCall rt))
    (hstep : ∀ st r e, e ∈ (stepRow env oi (clampMarkup mp) st r).2 → P e)
    (hstepF : ∀ products mbcf st r e,
        e ∈ (stepRowFuzzy env products mbcf (max 0 (min 1 θ)) oi (clampMarkup mp) st r).2 →
        P e) :
    ∀ e ∈ (runSync env accountId rows oi fz θ mp).2, P e := by
  intro e he
  simp only [runSync] at he
  split at he
  · simp at he
  · split at he
    · simp at he
    · split at he
      · simp at he
      · simp at he
      · split at he
        · split at he
          · simp at he
          · exact runRowsFuzzy_trace env _ _ _ oi _ P (hstepF _ _) rows _ e he
          · split at he
            · simp at he
              subst he
              exact hrefresh _
            · split at he
              · simp at he
                subst he
                exact hrefresh _
              · simp at he
                subst he
                exact hrefresh _
              · simp at he
                rcases he with he | he
                · subst he
                  exact hrefresh _
                · exact runRowsFuzzy_trace env _ _ _ oi _ P (hstepF _ _) rows _ e he
        · exact runRows_trace env oi _ P (hstep) rows _ e he

/-- An `Except.map (stateToResult mv)` that yields a result dict fixes its
`markup_percent` field to `mv`. -/
theorem exceptMap_ok_state (mv : ℚ) (x : Except Unit SyncState) (res : SyncResult)
    (h : x.map (stateToResult mv) = .ok res) : res.markupPercent = mv := by
  cases x with
  | error e => simp [Except.map] at h
  | ok st =>
    simp [Except.map] at h
    subst h
    rfl

/-- Whenever `runSync` returns a result dict, its `markup_percent` field is
the clamped markup value. -/
theorem runSync_markupPercent (env : SyncEnv) (accountId : String)
    (rows : List FeedRow) (oi fz : Bool) (θ : ℚ) (mp : Option ℚ) (res : SyncResult)
    (h : (runSync env accountId rows oi fz θ mp).1 = .ok res) :
    res.markupPercent = clampMarkup mp := by
  simp only [runSync] at h
  split at h
  · simp at h
    subst h
    rfl
  · split at h
    · simp at h
      subst h
      rfl
    · split at h
      · simp at h
      · simp at h
        subst h
        rfl
      · split at h
        · split at h
          · simp at h
          · dsimp only at h
            exact exceptMap_ok_state _ _ _ h
          · split at h
            · simp at h
              subst h
              rfl
            · split at h
              · simp at h
              · simp at h
                subst h
                rfl
              · dsimp only at h
                exact exceptMap_ok_state _ _ _ h
        · dsimp only at h
          exact exceptMap_ok_state _ _ _ h

/-- The mutation phase always issues its operation at least once, first at
the entry token. -/
theorem updateWithRetry_trace_head (env : SyncEnv) (st : SyncState)
    (op : String → RemoteOutcome Bool) (ev : String → CallEvent) :
    ∃ tl, (updateWithRetry env st op ev).2 = ev st.token :: tl := by
  cases hf : op st.token with
  | ok b => exact ⟨[], by simp [updateWithRetry, hf]⟩
  | raise => exact ⟨[], by simp [updateWithRetry, hf]⟩
  | unauthorized =>
    cases hr : env.refreshFn st.refreshTok with
    | none =>
      exact ⟨[.refreshCall st.refreshTok],
        by simp [updateWithRetry, refreshAndRetry, hf, hr]⟩
    | some d =>
      cases hg : op d.accessToken <;>
        exact ⟨[.refreshCall st.refreshTok, ev d.accessToken],
          by simp [updateWithRetry, refreshAndRetry, hf, hr, hg]⟩

/-- The mutation tail always issues the chosen mutation at least once. -/
theorem updatePhase_trace_head (env : SyncEnv) (mv : ℚ) (st : SyncState)
    (idf nid : String) (c : ℚ) :
    ∃ tl, (updatePhase env mv st idf nid c).2 =
      (chooseUpdateOp env mv nid c).2 st.token :: tl := by
  obtain ⟨tl, htl⟩ := updateWithRetry_trace_head env st
    (chooseUpdateOp env mv nid c).1 (chooseUpdateOp env mv nid c).2
  refine ⟨tl, ?_⟩
  rcases hq : updateWithRetry env st (chooseUpdateOp env mv nid c).1
      (chooseUpdateOp env mv nid c).2 with ⟨ph, tr₂⟩
  rw [hq] at htl
  cases ph with
  | raised => simpa [updatePhase, hq] using htl
  | stop st₂ => simpa [updatePhase, hq] using htl
  | next st₂ b => cases b <;> simpa [updatePhase, hq] using htl

/-- The chosen mutation's trace event is always a mutation event. -/
theorem chooseUpdateOp_ev_isUpdate (env : SyncEnv) (mv : ℚ) (nid : String)
    (c : ℚ) (t : String) :
    isUpdateEvent ((chooseUpdateOp env mv nid c).2 t) = true := by
  by_cases h : 0 < mv
  · rw [chooseUpdateOp_ev_pos env mv nid c t h]
    rfl
  · rw [chooseUpdateOp_ev_nonpos env mv nid c t h]
    rfl

/-- The price-protection test succeeds exactly when a current cost is known
and at least the feed cost. -/
theorem protectionSkips_iff (oi : Bool) (cost : ℚ) (cc : Option ℚ) :
    protectionSkips oi cost cc = true ↔
      oi = true ∧ ∃ c, cc = some c ∧ cost ≤ c := by
  cases cc with
  | none => simp [protectionSkips]
  | some c => simp [protectionSkips]

/-- The resolution phase leaves the accumulated not-found list unchanged. -/
theorem findWithRetry_next_skus (env : SyncEnv) (st : SyncState) (sku : String)
    (st₁ : SyncState) (res : Option (String × Option ℚ)) (tr : List CallEvent)
    (h : findWithRetry env st sku = (.next st₁ res, tr)) :
    st₁.skusNotFound = st.skusNotFound := by
  cases hf : env.find st.token sku with
  | ok r =>
    simp [findWithRetry, hf] at h
    obtain ⟨⟨h1, -⟩, -⟩ := h
    rw [← h1]
  | raise => simp [findWithRetry, hf] at h
  | unauthorized =>
    cases hr : env.refreshFn st.refreshTok with
    | none => simp [findWithRetry, refreshAndRetry, hf, hr] at h
    | some d =>
      cases hg : env.find d.accessToken sku with
      | ok r =>
        simp [findWithRetry, refreshAndRetry, hf, hr, hg] at h
        obtain ⟨⟨h1, -⟩, -⟩ := h
        rw [← h1]
      | raise => simp [findWithRetry, refreshAndRetry, hf, hr, hg] at h
      | unauthorized => simp [findWithRetry, refreshAndRetry, hf, hr, hg] at h

/-- The mutation phase leaves the accumulated not-found list unchanged. -/
theorem updateWithRetry_next_skus (env : SyncEnv) (st : SyncState)
    (op : String → RemoteOutcome Bool) (ev : String → CallEvent)
    (st₂ : SyncState) (b : Bool) (tr : List CallEvent)
    (h : updateWithRetry env st op ev = (.next st₂ b, tr)) :
    st₂.skusNotFound = st.skusNotFound := by
  cases hf : op st.token with
  | ok b' =>
    simp [updateWithRetry, hf] at h
    obtain ⟨⟨h1, -⟩, -⟩ := h
    rw [← h1]
  | raise => simp [updateWithRetry, hf] at h
  | unauthorized =>
    cases hr : env.refreshFn st.refreshTok with
    | none => simp [updateWithRetry, refreshAndRetry, hf, hr] at h
    | some d =>
      cases hg : op d.accessToken with
      | ok b' =>
        simp [updateWithRetry, refreshAndRetry, hf, hr, hg] at h
        obtain ⟨⟨h1, -⟩, -⟩ := h
        rw [← h1]
      | raise => simp [updateWithRetry, refreshAndRetry, hf, hr, hg] at h
      | unauthorized => simp [updateWithRetry, refreshAndRetry, hf, hr, hg] at h

set_option maxHeartbeats 2000000 in
/-- A row accepted by the per-row loop has a nonempty stripped identifier
and a cost produced by numeric parsing of its cleaned cost cell. -/
theorem processDataRow_some (pIdx tIdx : ℕ) (dIdx : Option ℕ) (row : List String)
    (r : FeedRow) (h : processDataRow pIdx tIdx dIdx row = some r) :
    r.identifier ≠ "" ∧ pyFloat (cleanCost (pyStrip (row.getD tIdx ""))) = some r.cost := by
  simp only [processDataRow] at h
  split at h
  · simp at h
  · split at h
    · simp at h
    · split at h
      · simp at h
      · rename_i hne
        split at h
        · rename_i c hc
          simp at h
          rw [← h]
          refine ⟨?_, ?_⟩
          · simpa [List.getD_eq_getElem?_getD] using hne
          · simpa [List.getD_eq_getElem?_getD] using hc
        · simp at h

/-- The header row located by the scan satisfies the header predicate. -/
theorem findHeaderIdx_isHeader (table : List (List String)) (i : ℕ)
    (h : findHeaderIdx table = some i) :
    isHeaderRow (table.getD i []) = true := by
  have hf := List.findIdx?_of_eq_some h
  cases hg : table[i]? with
  | none => rw [hg] at hf; simp at hf
  | some row =>
    rw [hg] at hf
    simp only at hf
    rw [List.getD_eq_getElem?_getD, hg]
    simpa using hf

/-- The located header row carries both required column names after
stripping. -/
theorem findHeaderIdx_fields (table : List (List String)) (i : ℕ)
    (h : findHeaderIdx table = some i) :
    "Part_Num" ∈ headerFields table i ∧ "Trade_Cost" ∈ headerFields table i := by
  have hh := findHeaderIdx_isHeader table i h
  simp only [isHeaderRow, Bool.and_eq_true] at hh
  constructor
  · have := hh.1
    simpa [headerFields] using this
  · have := hh.2
    simpa [headerFields] using this

/-- The initial value is below a max-fold. -/
theorem foldl_max_init_le (a : ℚ) (l : List ℚ) : a ≤ l.foldl max a := by
  induction l generalizing a with
  | nil => simp
  | cons x xs ih => exact le_trans (le_max_left a x) (ih (max a x))

/-- Every element is below a max-fold. -/
theorem foldl_max_ub (a : ℚ) (l : List ℚ) : ∀ x ∈ l, x ≤ l.foldl max a := by
  induction l generalizing a with
  | nil => simp
  | cons y ys ih =>
    intro x hx
    rcases List.mem_cons.mp hx with rfl | hx
    · exact le_trans (le_max_right a x) (foldl_max_init_le (max a x) ys)
    · exact ih (max a y) x hx

/-- A max-fold is the initial value or an element. -/
theorem foldl_max_mem (a : ℚ) (l : List ℚ) :
    l.foldl max a = a ∨ l.foldl max a ∈ l := by
  induction l generalizing a with
  | nil => simp
  | cons y ys ih =>
    rcases ih (max a y) with h | h
    · rcases max_cases a y with ⟨hm, -⟩ | ⟨hm, -⟩
      · left
        simpa [List.foldl_cons, hm] using h
      · right
        simp only [List.foldl_cons]
        rw [h, hm]
        exact List.mem_cons_self _ _
    · right
      exact List.mem_cons_of_mem _ h

/-- Every candidate's score is at most the best score. -/
theorem candScore_le_bestScore (ratio : String → String → ℚ) (sku : String)
    (mbcf : Bool) (products : List CatalogNode) :
    ∀ n ∈ products, candScore ratio sku mbcf n ≤ bestScore ratio sku mbcf products := by
  intro n hn
  exact foldl_max_ub (-1) _ _ (List.mem_map_of_mem _ hn)

/-- The best score is `-1` (no candidates contribute) or attained. -/
theorem bestScore_attained (ratio : String → String → ℚ) (sku : String)
    (mbcf : Bool) (products : List CatalogNode) :
    bestScore ratio sku mbcf products = -1 ∨
      ∃ n ∈ products, candScore ratio sku mbcf n = bestScore ratio sku mbcf products := by
  rcases foldl_max_mem (-1) (products.map (candScore ratio sku mbcf)) with h | h
  · exact .inl h
  · right
    obtain ⟨n, hn, hsc⟩ := List.mem_map.mp h
    exact ⟨n, hn, hsc⟩

/-- Invariant characterization of the fuzzy scan of `_resolve_from_list`:
either no candidate reached the threshold and the scan state is untouched,
or a leader exists whose score is the maximum of the threshold-reaching
scores, and the tie flag is set exactly when at least two candidates attain
that score. -/
theorem fzFold_char (ratio : String → String → ℚ) (sku : String) (mbcf : Bool)
    (θ : ℚ) (hθ : 0 < θ) (l : List CatalogNode) :
    ((fzFold ratio sku mbcf θ l).bestScore = -1 ∧
      (fzFold ratio sku mbcf θ l).bestId = none ∧
      (fzFold ratio sku mbcf θ l).tie = false ∧
      ∀ n ∈ l, candScore ratio sku mbcf n < θ)
    ∨ (θ ≤ (fzFold ratio sku mbcf θ l).bestScore ∧
       (∃ n ∈ l, candScore ratio sku mbcf n = (fzFold ratio sku mbcf θ l).bestScore) ∧
       (∀ n ∈ l, candScore ratio sku mbcf n ≤ (fzFold ratio sku mbcf θ l).bestScore ∨
         candScore ratio sku mbcf n < θ) ∧
       (∃ i, (fzFold ratio sku mbcf θ l).bestId = some i) ∧
       ((fzFold ratio sku mbcf θ l).tie = true ↔
         2 ≤ (l.filter (fun n => candScore ratio sku mbcf n =
           (fzFold ratio sku mbcf θ l).bestScore)).length)) := by
  induction l using List.reverseRecOn with
  | nil =>
    left
    simp [fzFold, fzInit]
  | append_singleton l n ih =>
    have hstep : fzFold ratio sku mbcf θ (l ++ [n]) =
        fzStep ratio sku mbcf θ (fzFold ratio sku mbcf θ l) n := by
      simp [fzFold, List.foldl_append]
    rcases ih with ⟨hbs, hbid, htie, hall⟩ | ⟨hθbs, ⟨m, hm, hms⟩, hub, ⟨i, hbid⟩, htie⟩
    · by_cases hs : θ ≤ candScore ratio sku mbcf n
      · right
        have hlt : (fzFold ratio sku mbcf θ l).bestScore < candScore ratio sku mbcf n := by
          rw [hbs]
          linarith
        rw [hstep]
        simp only [fzStep, if_pos hs, if_pos hlt]
        refine ⟨hs, ⟨n, by simp, rfl⟩, ?_, ⟨n.id, rfl⟩, ?_⟩
        · intro x hx
          rcases List.mem_append.mp hx with hx | hx
          · exact .inr (hall x hx)
          · rcases List.mem_singleton.mp hx with rfl
            exact .inl le_rfl
        · have hfl : l.filter (fun x => candScore ratio sku mbcf x =
              candScore ratio sku mbcf n) = [] := by
            rw [List.filter_eq_nil_iff]
            intro x hx
            simp only [decide_eq_true_eq]
            intro hxe
            exact absurd (hxe ▸ hall x hx) (not_lt.mpr hs)
          rw [List.filter_append, hfl]
          simp
      · left
        rw [hstep]
        simp only [fzStep, if_neg hs]
        refine ⟨hbs, hbid, htie, ?_⟩
        intro x hx
        rcases List.mem_append.mp hx with hx | hx
        · exact hall x hx
        · rcases List.mem_singleton.mp hx with rfl
          exact not_le.mp hs
    · by_cases hs : θ ≤ candScore ratio sku mbcf n
      · by_cases hlt : (fzFold ratio sku mbcf θ l).bestScore < candScore ratio sku mbcf n
        · right
          rw [hstep]
          simp only [fzStep, if_pos hs, if_pos hlt]
          refine ⟨hs, ⟨n, by simp, rfl⟩, ?_, ⟨n.id, rfl⟩, ?_⟩
          · intro x hx
            rcases List.mem_append.mp hx with hx | hx
            · rcases hub x hx with h | h
              · exact .inl (le_of_lt (lt_of_le_of_lt h hlt))
              · exact .inr h
            · rcases List.mem_singleton.mp hx with rfl
              exact .inl le_rfl
          · have hfl : l.filter (fun x => candScore ratio sku mbcf x =
                candScore ratio sku mbcf n) = [] := by
              rw [List.filter_eq_nil_iff]
              intro x hx
              simp only [decide_eq_true_eq]
              intro hxe
              rcases hub x hx with h | h
              · exact absurd (hxe ▸ h) (not_le.mpr hlt)
              · exact absurd (hxe ▸ hs) (not_le.mpr h)
            rw [List.filter_append, hfl]
            simp
        · by_cases heq : candScore ratio sku mbcf n = (fzFold ratio sku mbcf θ l).bestScore
          · right
            rw [hstep]
            simp only [fzStep, if_pos hs, if_neg hlt, if_pos heq]
            refine ⟨hθbs, ⟨m, List.mem_append_left _ hm, hms⟩, ?_, ⟨i, hbid⟩, ?_⟩
            · intro x hx
              rcases List.mem_append.mp hx with hx | hx
              · exact hub x hx
              · rcases List.mem_singleton.mp hx with rfl
                exact .inl (le_of_eq heq)
            · simp only [true_iff]
              rw [List.filter_append]
              have hmem : m ∈ l.filter (fun x => candScore ratio sku mbcf x =
                  (fzFold ratio sku mbcf θ l).bestScore) := by
                rw [List.mem_filter]
                exact ⟨hm, by simp [hms]⟩
              have h1 : 1 ≤ (l.filter (fun x => candScore ratio sku mbcf x =
                  (fzFold ratio sku mbcf θ l).bestScore)).length :=
                List.length_pos.mpr (List.ne_nil_of_mem hmem)
              have h2 : ([n].filter (fun x => candScore ratio sku mbcf x =
                  (fzFold ratio sku mbcf θ l).bestScore)).length = 1 := by
                simp [heq]
              rw [List.length_append, h2]
              omega
          · right
            rw [hstep]
            simp only [fzStep, if_pos hs, if_neg hlt, if_neg heq]
            refine ⟨hθbs, ⟨m, List.mem_append_left _ hm, hms⟩, ?_, ⟨i, hbid⟩, ?_⟩
            · intro x hx
              rcases List.mem_append.mp hx with hx | hx
              · exact hub x hx
              · rcases List.mem_singleton.mp hx with rfl
                exact .inl (le_of_not_lt hlt)
            · rw [List.filter_append]
              have h2 : ([n].filter (fun x => candScore ratio sku mbcf x =
                  (fzFold ratio sku mbcf θ l).bestScore)).length = 0 := by
                simp [heq]
              rw [List.length_append, h2]
              simpa using htie
      · right
        rw [hstep]
        simp only [fzStep, if_neg hs]
        refine ⟨hθbs, ⟨m, List.mem_append_left _ hm, hms⟩, ?_, ⟨i, hbid⟩, ?_⟩
        · intro x hx
          rcases List.mem_append.mp hx with hx | hx
          · exact hub x hx
          · rcases List.mem_singleton.mp hx with rfl
            exact .inr (not_le.mp hs)
        · rw [List.filter_append]
          have h2 : ([n].filter (fun x => candScore ratio sku mbcf x =
              (fzFold ratio sku mbcf θ l).bestScore)).length = 0 := by
            have : candScore ratio sku mbcf n ≠ (fzFold ratio sku mbcf θ l).bestScore := by
              intro hxe
              exact absurd (hxe ▸ hθbs) (not_le.mpr (not_le.mp hs))
            simp [this]
          rw [List.length_append, h2]
          simpa using htie

/-- When some candidate reaches the threshold, the scan's best score is the
best score over all candidates. -/
theorem fzFold_bestScore_eq (ratio : String → String → ℚ) (sku : String)
    (mbcf : Bool) (θ : ℚ) (hθ : 0 < θ) (l : List CatalogNode)
    (hbest : θ ≤ bestScore ratio sku mbcf l) :
    (fzFold ratio sku mbcf θ l).bestScore = bestScore ratio sku mbcf l := by
  obtain ⟨m, hm, hms⟩ : ∃ n ∈ l, candScore ratio sku mbcf n =
      bestScore ratio sku mbcf l := by
    rcases bestScore_attained ratio sku mbcf l with h | h
    · rw [h] at hbest
      linarith
    · exact h
  rcases fzFold_char ratio sku mbcf θ hθ l with ⟨-, -, -, hall⟩ | ⟨-, ⟨a, ha, has⟩, hub, -, -⟩
  · exact absurd (hms ▸ hall m hm) (not_lt.mpr hbest)
  · have h1 : (fzFold ratio sku mbcf θ l).bestScore ≤ bestScore ratio sku mbcf l :=
      has ▸ candScore_le_bestScore ratio sku mbcf l a ha
    refine le_antisymm h1 ?_
    rcases hub m hm with h | h
    · exact hms ▸ h
    · exact absurd (hms ▸ hbest) (not_le.mpr h)

/-! ## Claim theorems -/

/-- C1.  Price protection: with `only_increase_cost` set, a feed row that
resolves to a catalog entry is skipped with `skipped_protected` incremented
exactly when a current cost is known and is at least the feed cost — in the
skip case the step ends with the resolution trace only, which contains no
mutation event; when the current cost is absent (or known but below the feed
cost) the mutation is issued.  This holds for both the pagination-based and
the fuzzy row step, and the "absent is zero" convention exists only in the
preview classifier, where an absent current cost classifies exactly like a
known cost of `0`. -/
theorem price_protection (env : SyncEnv) (mv : ℚ) (st : SyncState) (r : FeedRow) :
    (∀ st₁ tr₁ nid cc,
      findWithRetry env st r.identifier = (.next st₁ (some (nid, cc)), tr₁) →
      (((∃ c, cc = some c ∧ r.cost ≤ c) →
          stepRow env true mv st r =
            (.next { st₁ with skippedProtected := st₁.skippedProtected + 1 } (), tr₁) ∧
          ∀ e ∈ tr₁, isUpdateEvent e = false)
       ∧ ((cc = none ∨ ∃ c, cc = some c ∧ c < r.cost) →
          ∃ ph tr₂, stepRow env true mv st r = (ph, tr₁ ++ tr₂) ∧
            ∃ e ∈ tr₂, isUpdateEvent e = true)))
    ∧ (∀ products mbcf θ nid,
        (resolveFromList env.ratio r.identifier products mbcf false θ).entryId =
          some nid →
        (((∃ c, (resolveFromList env.ratio r.identifier products mbcf false
              θ).currentCost = some c ∧ r.cost ≤ c) →
           ∃ stB : SyncState, stepRowFuzzy env products mbcf θ true mv st r =
             (.next { stB with skippedProtected := stB.skippedProtected + 1 } (), []))
         ∧ (((resolveFromList env.ratio r.identifier products mbcf false
               θ).currentCost = none ∨
             ∃ c, (resolveFromList env.ratio r.identifier products mbcf false
               θ).currentCost = some c ∧ c < r.cost) →
           ∃ ph tr₂, stepRowFuzzy env products mbcf θ true mv st r = (ph, tr₂) ∧
             ∃ e ∈ tr₂, isUpdateEvent e = true)))
    ∧ (∀ cost : ℚ, previewClassify cost none = previewClassify cost (some 0)) := by
  refine ⟨?_, ?_, fun _ => rfl⟩
  · intro st₁ tr₁ nid cc hf
    constructor
    · rintro ⟨c, rfl, hc⟩
      have hp : protectionSkips true r.cost (some c) = true := by
        simp [protectionSkips, hc]
      constructor
      · simp [stepRow, hf, hp]
      · intro e he
        have := findWithRetry_trace env st r.identifier e (by rw [hf]; exact he)
        rcases this with ⟨t, s', rfl⟩ | ⟨rt, rfl⟩ <;> rfl
    · intro hcc
      have hp : protectionSkips true r.cost cc = false := by
        rcases hcc with rfl | ⟨c, rfl, hc⟩
        · simp [protectionSkips]
        · simp [protectionSkips, not_le.mpr hc]
      obtain ⟨tl, htl⟩ := updatePhase_trace_head env mv st₁ r.identifier nid r.cost
      refine ⟨(updatePhase env mv st₁ r.identifier nid r.cost).1,
        (updatePhase env mv st₁ r.identifier nid r.cost).2, ?_, ?_⟩
      · simp [stepRow, hf, hp]
      · refine ⟨(chooseUpdateOp env mv nid r.cost).2 st₁.token, ?_, ?_⟩
        · rw [htl]
          exact List.mem_cons_self _ _
        · exact chooseUpdateOp_ev_isUpdate env mv nid r.cost st₁.token
  · intro products mbcf θ nid hm
    constructor
    · rintro ⟨c, hcc, hc⟩
      have hp : protectionSkips true r.cost
          (resolveFromList env.ratio r.identifier products mbcf false θ).currentCost
          = true := by
        rw [hcc]
        simp [protectionSkips, hc]
      refine ⟨(if (resolveFromList env.ratio r.identifier products mbcf false
          θ).fuzzyUsed then { st with fuzzyMatchedCount := st.fuzzyMatchedCount + 1 }
          else st), ?_⟩
      simp [stepRowFuzzy, hm, hp]
    · intro hcc
      have hp : protectionSkips true r.cost
          (resolveFromList env.ratio r.identifier products mbcf false θ).currentCost
          = false := by
        rcases hcc with hn | ⟨c, hc, hlt⟩
        · rw [hn]
          simp [protectionSkips]
        · rw [hc]
          simp [protectionSkips, not_le.mpr hlt]
      obtain ⟨tl, htl⟩ := updatePhase_trace_head env mv
        (if (resolveFromList env.ratio r.identifier products mbcf false θ).fuzzyUsed
          then { st with fuzzyMatchedCount := st.fuzzyMatchedCount + 1 } else st)
        r.identifier nid r.cost
      refine ⟨(updatePhase env mv
          (if (resolveFromList env.ratio r.identifier products mbcf false θ).fuzzyUsed
            then { st with fuzzyMatchedCount := st.fuzzyMatchedCount + 1 } else st)
          r.identifier nid r.cost).1,
        (updatePhase env mv
          (if (resolveFromList env.ratio r.identifier products mbcf false θ).fuzzyUsed
            then { st with fuzzyMatchedCount := st.fuzzyMatchedCount + 1 } else st)
          r.identifier nid r.cost).2, ?_, ?_⟩
      · simp [stepRowFuzzy, hm, hp]
      · refine ⟨(chooseUpdateOp env mv nid r.cost).2
            (if (resolveFromList env.ratio r.identifier products mbcf false θ).fuzzyUsed
              then { st with fuzzyMatchedCount := st.fuzzyMatchedCount + 1 }
              else st).token,
          ?_, chooseUpdateOp_ev_isUpdate env mv nid r.cost _⟩
        rw [htl]
        exact List.mem_cons_self _ _

/-- C8.  `get_valid_access_token` contract: with a stored credential it
returns the stored token when no expiry is recorded or the expiry is more
than 120 seconds away; within the buffer it refreshes inline, persists the
rotated pair (with the reported lifetime added to the current time when
present) and returns the new token; a failed inline refresh falls back to
the stored, stale token; and with no stored credential it fails with the
no-connection error. -/
theorem getValidToken_contract (env : OAuthEnv) (accountId : String) :
    (env.store accountId = none →
      getValidAccessToken env accountId =
        (.error "No connection for account; reconnect required", none))
    ∧ ∀ row, env.store accountId = some row →
        row.accessToken ≠ "" → row.refreshToken ≠ "" →
        ((row.expiresAt = none →
            getValidAccessToken env accountId = (.ok row.accessToken, none))
         ∧ (∀ e, row.expiresAt = some e → refreshBufferSeconds < e - env.now →
            getValidAccessToken env accountId = (.ok row.accessToken, none))
         ∧ (∀ e d, row.expiresAt = some e → e - env.now ≤ refreshBufferSeconds →
            env.refreshFn row.refreshToken = some d →
            getValidAccessToken env accountId =
              (.ok d.accessToken,
               some ⟨d.accessToken, d.refreshToken,
                     d.expiresIn.map (fun x => env.now + x)⟩))
         ∧ (∀ e, row.expiresAt = some e → e - env.now ≤ refreshBufferSeconds →
            env.refreshFn row.refreshToken = none →
            getValidAccessToken env accountId = (.ok row.accessToken, none))) := by
  constructor
  · intro h
    simp only [getValidAccessToken, h]
  · intro row hrow ha hr
    refine ⟨?_, ?_, ?_, ?_⟩
    · intro hexp
      simp only [getValidAccessToken, hrow, hexp]
      rw [if_neg (by simp [ha, hr])]
    · intro e hexp hfar
      simp only [getValidAccessToken, hrow, hexp]
      rw [if_neg (by simp [ha, hr]), if_neg (by omega)]
    · intro e d hexp hnear href
      simp only [getValidAccessToken, hrow, hexp, href]
      rw [if_neg (by simp [ha, hr]), if_pos hnear]
    · intro e hexp hnear href
      simp only [getValidAccessToken, hrow, hexp, href]
      rw [if_neg (by simp [ha, hr]), if_pos hnear]

/-- C4.  Markup policy: in a `run_sync` run with `markup_percent = p > 0`,
every mutation issued is the combined cost-and-price call and carries
`price = round(cost * (1 + p/100), 2)` for its row's cost (in particular no
cost-only call is ever made); with `p = 0` no combined call is ever made, so
no selling price is written. -/
theorem markup_policy (env : SyncEnv) (accountId : String) (rows : List FeedRow)
    (oi fz : Bool) (θ : ℚ) (p : ℚ) :
    (0 < p →
      ∀ e ∈ (runSync env accountId rows oi fz θ (some p)).2,
        (∀ t n c, e ≠ .updateCostCall t n c) ∧
        (∀ t n c pr, e = .updateCostPriceCall t n c pr →
          pr = round2 (c * (1 + p / 100))))
    ∧ (∀ e ∈ (runSync env accountId rows oi fz θ (some 0)).2,
        ∀ t n c pr, e ≠ .updateCostPriceCall t n c pr) := by
  constructor
  · intro hp e he
    have hmv : clampMarkup (some p) = p := by
      simp only [clampMarkup]
      exact max_eq_right hp.le
    refine runSync_trace env accountId rows oi fz θ (some p)
      (fun e => (∀ t n c, e ≠ .updateCostCall t n c) ∧
        (∀ t n c pr, e = .updateCostPriceCall t n c pr →
          pr = round2 (c * (1 + p / 100)))) ?_ ?_ ?_ e he
    · intro rt
      constructor
      · intro t n c hne
        simp at hne
      · intro t n c pr hne
        simp at hne
    · intro st r x hx
      rcases stepRow_trace env oi (clampMarkup (some p)) st r x hx with h | h | h
      · obtain ⟨t, s', rfl⟩ := h
        exact ⟨fun t n c hne => by simp at hne, fun t n c pr hne => by simp at hne⟩
      · obtain ⟨rt, rfl⟩ := h
        exact ⟨fun t n c hne => by simp at hne, fun t n c pr hne => by simp at hne⟩
      · obtain ⟨nid, t, rfl⟩ := h
        rw [hmv, chooseUpdateOp_ev_pos env p nid r.cost t hp]
        refine ⟨fun t n c hne => by simp at hne, ?_⟩
        intro t' n c pr hne
        rw [CallEvent.updateCostPriceCall.injEq] at hne
        obtain ⟨-, -, rfl, rfl⟩ := hne
        rfl
    · intro products mbcf st r x hx
      rcases stepRowFuzzy_trace env products mbcf _ oi _ st r x hx with h | h
      · obtain ⟨rt, rfl⟩ := h
        exact ⟨fun t n c hne => by simp at hne, fun t n c pr hne => by simp at hne⟩
      · obtain ⟨nid, t, rfl⟩ := h
        rw [hmv, chooseUpdateOp_ev_pos env p nid r.cost t hp]
        refine ⟨fun t n c hne => by simp at hne, ?_⟩
        intro t' n c pr hne
        rw [CallEvent.updateCostPriceCall.injEq] at hne
        obtain ⟨-, -, rfl, rfl⟩ := hne
        rfl
  · intro e he
    have hmv : clampMarkup (some 0) = 0 := by simp [clampMarkup]
    refine runSync_trace env accountId rows oi fz θ (some 0)
      (fun e => ∀ t n c pr, e ≠ .updateCostPriceCall t n c pr) ?_ ?_ ?_ e he
    · intro rt t n c pr hne
      simp at hne
    · intro st r x hx
      rcases stepRow_trace env oi (clampMarkup (some 0)) st r x hx with h | h | h
      · obtain ⟨t, s', rfl⟩ := h
        intro t n c pr hne
        simp at hne
      · obtain ⟨rt, rfl⟩ := h
        intro t n c pr hne
        simp at hne
      · obtain ⟨nid, t, rfl⟩ := h
        rw [hmv, chooseUpdateOp_ev_nonpos env 0 nid r.cost t (by norm_num)]
        intro t' n c pr hne
        simp at hne
    · intro products mbcf st r x hx
      rcases stepRowFuzzy_trace env products mbcf _ oi _ st r x hx with h | h
      · obtain ⟨rt, rfl⟩ := h
        intro t n c pr hne
        simp at hne
      · obtain ⟨nid, t, rfl⟩ := h
        rw [hmv, chooseUpdateOp_ev_nonpos env 0 nid r.cost t (by norm_num)]
        intro t' n c pr hne
        simp at hne

/-- Witness for C4: a run over one row of cost `10` with `markup_percent 25`
issues exactly one combined call, and the theorem forces its price to be
`round(10 * 1.25, 2) = 12.5`. -/
theorem markup_policy_witness :
    (25 : ℚ) / 2 = round2 (10 * (1 + 25 / 100)) := by
  have htr : (runSync sampleSyncEnv "acc" [⟨"SKU1", 10, ""⟩] false false (9 / 10)
      (some 25)).2 =
      [.findCall "at" "SKU1", .updateCostPriceCall "at" "id-1" 10 (25 / 2)] := by
    norm_num [runSync, runRows, stepRow, findWithRetry, refreshAndRetry, updatePhase,
      updateWithRetry, chooseUpdateOp, protectionSkips, getValidAccessToken,
      SyncEnv.oauth, sampleSyncEnv, sampleStore, initState, clampMarkup,
      stateToResult, round2, roundHalfEven]
    simp [stateToResult, Except.map]
  have h := (markup_policy sampleSyncEnv "acc" [⟨"SKU1", 10, ""⟩] false false
      (9 / 10) 25).1 (by norm_num)
    (.updateCostPriceCall "at" "id-1" 10 (25 / 2)) (by rw [htr]; simp)
  exact h.2 "at" "id-1" 10 (25 / 2) rfl

/-- C10.  Implicit markup clamping: a `run_sync` call with `markup_percent`
absent or negative behaves as markup `0` — the returned result dict reports
`markup_percent = 0` and no combined cost-and-price mutation is ever issued,
so no selling price is written. -/
theorem markup_clamping (env : SyncEnv) (accountId : String) (rows : List FeedRow)
    (oi fz : Bool) (θ : ℚ) (mp : Option ℚ)
    (h : mp = none ∨ ∃ m, mp = some m ∧ m < 0) :
    (∀ res, (runSync env accountId rows oi fz θ mp).1 = .ok res →
        res.markupPercent = 0)
    ∧ (∀ e ∈ (runSync env accountId rows oi fz θ mp).2,
        ∀ t n c pr, e ≠ .updateCostPriceCall t n c pr) := by
  have hmv : clampMarkup mp = 0 := by
    rcases h with rfl | ⟨m, rfl, hm⟩
    · rfl
    · simp only [clampMarkup]
      exact max_eq_left hm.le
  constructor
  · intro res hres
    rw [runSync_markupPercent env accountId rows oi fz θ mp res hres, hmv]
  · intro e he
    refine runSync_trace env accountId rows oi fz θ mp
      (fun e => ∀ t n c pr, e ≠ .updateCostPriceCall t n c pr) ?_ ?_ ?_ e he
    · intro rt t n c pr hne
      simp at hne
    · intro st r x hx
      rcases stepRow_trace env oi (clampMarkup mp) st r x hx with hh | hh | hh
      · obtain ⟨t, s', rfl⟩ := hh
        intro t n c pr hne
        simp at hne
      · obtain ⟨rt, rfl⟩ := hh
        intro t n c pr hne
        simp at hne
      · obtain ⟨nid, t, rfl⟩ := hh
        rw [hmv] at *
        rw [chooseUpdateOp_ev_nonpos env 0 nid r.cost t (by norm_num)]
        intro t' n c pr hne
        simp at hne
    · intro products mbcf st r x hx
      rcases stepRowFuzzy_trace env products mbcf _ oi _ st r x hx with hh | hh
      · obtain ⟨rt, rfl⟩ := hh
        intro t n c pr hne
        simp at hne
      · obtain ⟨nid, t, rfl⟩ := hh
        rw [hmv] at *
        rw [chooseUpdateOp_ev_nonpos env 0 nid r.cost t (by norm_num)]
        intro t' n c pr hne
        simp at hne

/-- Witness for C10: a run with `markup_percent = -5` reports the clamped
value `0` in its result. -/
theorem markup_clamping_witness :
    ∃ res, (runSync sampleSyncEnv "acc" [⟨"SKU1", 10, ""⟩] false false (9 / 10)
        (some (-5))).1 = .ok res ∧ res.markupPercent = 0 := by
  have hres : (runSync sampleSyncEnv "acc" [⟨"SKU1", 10, ""⟩] false false (9 / 10)
      (some (-5))).1 = .ok ⟨1, [], 0, 0, 0, none⟩ := by
    norm_num [runSync, runRows, stepRow, findWithRetry, refreshAndRetry, updatePhase,
      updateWithRetry, chooseUpdateOp, protectionSkips, getValidAccessToken,
      SyncEnv.oauth, sampleSyncEnv, sampleStore, initState, clampMarkup,
      stateToResult, round2, roundHalfEven]
    simp [stateToResult, Except.map]
  exact ⟨⟨1, [], 0, 0, 0, none⟩, hres,
    (markup_clamping sampleSyncEnv "acc" [⟨"SKU1", 10, ""⟩] false false (9 / 10)
      (some (-5)) (.inr ⟨-5, rfl, by norm_num⟩)).1 ⟨1, [], 0, 0, 0, none⟩ hres⟩

/-- Witness for C1: on the sample environment the current cost is `10`, so
with `only_increase_cost` a feed cost of `5` is protection-skipped: the step
ends after the lookup with `skipped_protected` bumped and no mutation call. -/
theorem price_protection_witness :
    stepRow sampleSyncEnv true 0 (initState "at" "rt") ⟨"SKU1", 5, ""⟩ =
      (.next { initState "at" "rt" with skippedProtected := 1 } (),
       [.findCall "at" "SKU1"]) := by
  have h := ((price_protection sampleSyncEnv 0 (initState "at" "rt")
      ⟨"SKU1", 5, ""⟩).1 (initState "at" "rt") [.findCall "at" "SKU1"] "id-1"
      (some 10) (by rfl)).1 ⟨10, rfl, by norm_num⟩
  simpa [initState] using h.1

/-- C7 (amended).  Per-row resolution outcome: every feed row whose step
completes normally either failed to resolve — and then its identifier is
appended to the not-found list — or resolved to an entry id; a resolved row's
identifier is additionally appended to the not-found list exactly in the case
where its mutation attempt returned failure.  (The original exactly-one
dichotomy is refuted by `row_dichotomy_counterexample`.) -/
theorem row_outcome_dichotomy (env : SyncEnv) (oi : Bool) (mv : ℚ)
    (st : SyncState) (r : FeedRow) (st' : SyncState) (tr : List CallEvent)
    (h : stepRow env oi mv st r = (.next st' (), tr)) :
    (∃ st₁ tr₁, findWithRetry env st r.identifier = (.next st₁ none, tr₁) ∧
        st'.skusNotFound = st.skusNotFound ++ [r.identifier])
    ∨ (∃ st₁ tr₁ hit, findWithRetry env st r.identifier = (.next st₁ (some hit), tr₁) ∧
        (st'.skusNotFound = st.skusNotFound ∨
         (st'.skusNotFound = st.skusNotFound ++ [r.identifier] ∧
          ∃ st₂ tr₂, updateWithRetry env st₁ (chooseUpdateOp env mv hit.1 r.cost).1
              (chooseUpdateOp env mv hit.1 r.cost).2 = (.next st₂ false, tr₂)))) := by
  rcases hf : findWithRetry env st r.identifier with ⟨ph, tr₁⟩
  cases ph with
  | raised => simp [stepRow, hf] at h
  | stop st₁ => simp [stepRow, hf] at h
  | next st₁ res =>
    have hsk₁ : st₁.skusNotFound = st.skusNotFound :=
      findWithRetry_next_skus env st r.identifier st₁ res tr₁ hf
    cases res with
    | none =>
      left
      refine ⟨st₁, tr₁, rfl, ?_⟩
      simp [stepRow, hf] at h
      obtain ⟨h1, -⟩ := h
      rw [← h1]
      simp [hsk₁]
    | some hit =>
      right
      refine ⟨st₁, tr₁, hit, rfl, ?_⟩
      by_cases hp : protectionSkips oi r.cost hit.2 = true
      · left
        simp [stepRow, hf, hp] at h
        obtain ⟨h1, -⟩ := h
        rw [← h1]
        simpa using hsk₁
      · simp only [stepRow, hf, hp, Bool.false_eq_true, if_neg, if_false] at h
        rcases hu : updateWithRetry env st₁ (chooseUpdateOp env mv hit.1 r.cost).1
            (chooseUpdateOp env mv hit.1 r.cost).2 with ⟨ph₂, tr₂⟩
        have hsk₂ : ∀ st₂ b, ph₂ = .next st₂ b →
            st₂.skusNotFound = st.skusNotFound := by
          intro st₂ b hb
          rw [hb] at hu
          rw [updateWithRetry_next_skus env st₁ _ _ st₂ b tr₂ hu]
          exact hsk₁
        cases ph₂ with
        | raised => simp [updatePhase, hu] at h
        | stop st₂ => simp [updatePhase, hu] at h
        | next st₂ b =>
          cases b with
          | true =>
            left
            simp [updatePhase, hu] at h
            obtain ⟨h1, -⟩ := h
            rw [← h1]
            simpa using hsk₂ st₂ true rfl
          | false =>
            right
            constructor
            · simp [updatePhase, hu] at h
              obtain ⟨h1, -⟩ := h
              rw [← h1]
              simpa using hsk₂ st₂ false rfl
            · exact ⟨st₂, tr₂, rfl⟩

/-- Witness for C7 (amended): on the sample environment a resolved row whose
mutation succeeds lands in the resolved-and-not-recorded disjunct. -/
theorem row_outcome_dichotomy_witness :
    (∃ st₁ tr₁, findWithRetry sampleSyncEnv (initState "at" "rt") "SKU1" =
        (.next st₁ none, tr₁) ∧
        ({ initState "at" "rt" with updated := 1 } : SyncState).skusNotFound =
          (initState "at" "rt").skusNotFound ++ ["SKU1"])
    ∨ (∃ st₁ tr₁ hit,
        findWithRetry sampleSyncEnv (initState "at" "rt") "SKU1" =
          (.next st₁ (some hit), tr₁) ∧
        (({ initState "at" "rt" with updated := 1 } : SyncState).skusNotFound =
            (initState "at" "rt").skusNotFound ∨
         (({ initState "at" "rt" with updated := 1 } : SyncState).skusNotFound =
            (initState "at" "rt").skusNotFound ++ ["SKU1"] ∧
          ∃ st₂ tr₂, updateWithRetry sampleSyncEnv st₁
              (chooseUpdateOp sampleSyncEnv 0 hit.1 (15 : ℚ)).1
              (chooseUpdateOp sampleSyncEnv 0 hit.1 (15 : ℚ)).2 =
            (.next st₂ false, tr₂)))) := by
  have hstep : stepRow sampleSyncEnv false 0 (initState "at" "rt") ⟨"SKU1", 15, ""⟩ =
      (.next { initState "at" "rt" with updated := 1 } (),
       [.findCall "at" "SKU1", .updateCostCall "at" "id-1" 15]) := by
    norm_num [stepRow, findWithRetry, updatePhase, updateWithRetry, chooseUpdateOp,
      protectionSkips, sampleSyncEnv, sampleStore, initState]
  exact row_outcome_dichotomy sampleSyncEnv false 0 (initState "at" "rt")
    ⟨"SKU1", 15, ""⟩ { initState "at" "rt" with updated := 1 } _ hstep

/-- C3.  Reactive refresh-and-retry-once with partial progress, in the
non-fuzzy batch: when the resolution call for a row reports unauthorized,
exactly one refresh is attempted; if the refresh itself fails the run stops
there with the terminal session-expired error and the returned result still
carries every counter accumulated over the previous rows (the equations fix
the whole trace, so no further call and no further row is processed); if the
refresh succeeds the same lookup is retried exactly once, a second
unauthorized being terminal in the same counter-preserving way.  The last
three conjuncts state the same retry-once discipline for the retried lookup's
success case and for the mutation operations. -/
theorem reactive_refresh_retry_once (env : SyncEnv) (accountId : String)
    (pre post : List FeedRow) (r : FeedRow) (oi : Bool) (θ : ℚ) (mp : Option ℚ)
    (connRow : ConnRow) (token : String) (mbcf : Bool)
    (st₁ : SyncState) (tr₁ : List CallEvent)
    (hconn : env.store accountId = some connRow)
    (htok : (getValidAccessToken env.oauth accountId).1 = .ok token)
    (hprobe : env.probe token = .ok mbcf)
    (hpre : runRows env oi (clampMarkup mp) (initState token connRow.refreshToken) pre
      = (.ok st₁, tr₁))
    (herr : st₁.error = none)
    (hunauth : env.find st₁.token r.identifier = .unauthorized) :
    (env.refreshFn st₁.refreshTok = none →
      runSync env accountId (pre ++ r :: post) oi false θ mp =
        (.ok (stateToResult (clampMarkup mp)
          { st₁ with error := some refreshFailedMsg }),
         tr₁ ++ [.findCall st₁.token r.identifier, .refreshCall st₁.refreshTok]))
    ∧ (∀ d, env.refreshFn st₁.refreshTok = some d →
        env.find d.accessToken r.identifier = .unauthorized →
        runSync env accountId (pre ++ r :: post) oi false θ mp =
          (.ok (stateToResult (clampMarkup mp)
            { st₁ with
              token := d.accessToken, refreshTok := d.refreshToken,
              error := some sessionExpiredMsg }),
           tr₁ ++ [.findCall st₁.token r.identifier, .refreshCall st₁.refreshTok,
                   .findCall d.accessToken r.identifier]))
    ∧ (∀ d res, env.refreshFn st₁.refreshTok = some d →
        env.find d.accessToken r.identifier = .ok res →
        findWithRetry env st₁ r.identifier =
          (.next { st₁ with token := d.accessToken, refreshTok := d.refreshToken } res,
           [.findCall st₁.token r.identifier, .refreshCall st₁.refreshTok,
            .findCall d.accessToken r.identifier]))
    ∧ (∀ st : SyncState, ∀ op ev, op st.token = .unauthorized →
        env.refreshFn st.refreshTok = none →
        updateWithRetry env st op ev =
          (.stop { st with error := some refreshFailedMsg },
           [ev st.token, .refreshCall st.refreshTok]))
    ∧ (∀ st : SyncState, ∀ op ev d, op st.token = .unauthorized →
        env.refreshFn st.refreshTok = some d → op d.accessToken = .unauthorized →
        updateWithRetry env st op ev =
          (.stop { st with
            token := d.accessToken, refreshTok := d.refreshToken,
            error := some sessionExpiredMsg },
           [ev st.token, .refreshCall st.refreshTok, ev d.accessToken])) := by
  have hrs : ∀ l : List FeedRow,
      runSync env accountId l oi false θ mp =
        ((runRows env oi (clampMarkup mp) (initState token connRow.refreshToken) l).1.map
          (stateToResult (clampMarkup mp)),
         (runRows env oi (clampMarkup mp) (initState token connRow.refreshToken) l).2) := by
    intro l
    simp only [runSync, hconn, htok, hprobe, Bool.false_eq_true, if_false]
  refine ⟨?_, ?_, ?_, ?_, ?_⟩
  · intro hrf
    have hfr : findWithRetry env st₁ r.identifier =
        (.stop { st₁ with error := some refreshFailedMsg },
         [.findCall st₁.token r.identifier, .refreshCall st₁.refreshTok]) := by
      simp [findWithRetry, refreshAndRetry, hunauth, hrf]
    have hstep : stepRow env oi (clampMarkup mp) st₁ r =
        (.stop { st₁ with error := some refreshFailedMsg },
         [.findCall st₁.token r.identifier, .refreshCall st₁.refreshTok]) := by
      simp [stepRow, hfr]
    have hloop : runRows env oi (clampMarkup mp) st₁ (r :: post) =
        (.ok { st₁ with error := some refreshFailedMsg },
         [.findCall st₁.token r.identifier, .refreshCall st₁.refreshTok]) := by
      simp [runRows, herr, hstep]
    rw [hrs, runRows_append, hpre]
    dsimp only
    rw [hloop]
    simp [Except.map]
  · intro d hrf hagain
    have hfr : findWithRetry env st₁ r.identifier =
        (.stop { st₁ with
           token := d.accessToken, refreshTok := d.refreshToken,
           error := some sessionExpiredMsg },
         [.findCall st₁.token r.identifier, .refreshCall st₁.refreshTok,
          .findCall d.accessToken r.identifier]) := by
      simp [findWithRetry, refreshAndRetry, hunauth, hrf, hagain]
    have hstep : stepRow env oi (clampMarkup mp) st₁ r =
        (.stop { st₁ with
           token := d.accessToken, refreshTok := d.refreshToken,
           error := some sessionExpiredMsg },
         [.findCall st₁.token r.identifier, .refreshCall st₁.refreshTok,
          .findCall d.accessToken r.identifier]) := by
      simp [stepRow, hfr]
    have hloop : runRows env oi (clampMarkup mp) st₁ (r :: post) =
        (.ok { st₁ with
           token := d.accessToken, refreshTok := d.refreshToken,
           error := some sessionExpiredMsg },
         [.findCall st₁.token r.identifier, .refreshCall st₁.refreshTok,
          .findCall d.accessToken r.identifier]) := by
      simp [runRows, herr, hstep]
    rw [hrs, runRows_append, hpre]
    dsimp only
    rw [hloop]
    simp [Except.map]
  · intro d res hrf hok
    simp [findWithRetry, refreshAndRetry, hunauth, hrf, hok]
  · intro st op ev hop hrf
    simp [updateWithRetry, refreshAndRetry, hop, hrf]
  · intro st op ev d hop hrf hagain
    simp [updateWithRetry, refreshAndRetry, hop, hrf, hagain]

/-- Witness for C3: on `sampleExpiredEnv` the first row's lookup is
unauthorized and the refresh endpoint fails, so the two-row run ends at the
first row with the terminal error, zero counts, and exactly one lookup plus
one refresh attempt in the trace. -/
theorem reactive_refresh_retry_once_witness :
    runSync sampleExpiredEnv "acc" [⟨"A", 1, ""⟩, ⟨"B", 2, ""⟩] false false
        (9 / 10) none =
      (.ok ⟨0, [], 0, 0, 0, some refreshFailedMsg⟩,
       [.findCall "at" "A", .refreshCall "rt"]) := by
  have h := (reactive_refresh_retry_once sampleExpiredEnv "acc" [] [⟨"B", 2, ""⟩]
      ⟨"A", 1, ""⟩ false (9 / 10) none ⟨"at", "rt", none⟩ "at" false
      (initState "at" "rt") [] (by rfl) (by rfl) (by rfl) (by rfl) rfl
      (by rfl)).1 (by rfl)
  simpa [stateToResult, initState, clampMarkup] using h

/-- Counterexample for C7 as stated: on `sampleUpdateFailEnv` the single row
resolves to entry `"id-1"` (the lookup oracle returns it), yet after the
mutation's logical failure the run records the same identifier in
`skus_not_found` — the row is simultaneously resolved and recorded as
not found, so the exactly-one dichotomy fails. -/
theorem row_dichotomy_counterexample :
    sampleUpdateFailEnv.find "at" "SKU1" = .ok (some ("id-1", some 10)) ∧
    (runSync sampleUpdateFailEnv "acc" [⟨"SKU1", 15, ""⟩] false false (9 / 10)
        none).1 = .ok ⟨0, ["SKU1"], 0, 0, 0, none⟩ := by
  constructor
  · rfl
  · norm_num [runSync, runRows, stepRow, findWithRetry, refreshAndRetry, updatePhase,
      updateWithRetry, chooseUpdateOp, protectionSkips, getValidAccessToken,
      SyncEnv.oauth, sampleUpdateFailEnv, sampleSyncEnv, sampleStore, initState,
      clampMarkup, stateToResult]
    simp [stateToResult, Except.map]

/-- C5.  Feed parsing filter and failure conditions: every row a successful
parse returns has a nonempty identifier and a cost produced by numeric
parsing of a (cleaned) cost cell; the parse fails with the missing-columns
error exactly when no row of the table carries both required column names,
and with the no-valid-rows error exactly when a header is located but every
row below it is skipped; the two conditions carry distinct user-facing
messages. -/
theorem feed_parse_contract (table : List (List String)) :
    (∀ rows, parseCsvRows table = .ok rows →
      ∀ r ∈ rows, r.identifier ≠ "" ∧ ∃ raw, pyFloat (cleanCost raw) = some r.cost)
    ∧ (parseCsvRows table = .error .missingColumns ↔ findHeaderIdx table = none)
    ∧ (parseCsvRows table = .error .noValidRows ↔
        ∃ i, findHeaderIdx table = some i ∧ validRowsFrom table i = [])
    ∧ parseErrorMessage .missingColumns ≠ parseErrorMessage .noValidRows := by
  refine ⟨?_, ⟨?_, ?_⟩, ⟨?_, ?_⟩, by simp [parseErrorMessage]⟩
  · intro rows hok r hr
    cases hidx : findHeaderIdx table with
    | none => simp [parseCsvRows, hidx] at hok
    | some i =>
      have hfld := findHeaderIdx_fields table i hidx
      simp only [parseCsvRows, hidx] at hok
      rw [if_neg (by simp [hfld.1, hfld.2])] at hok
      split at hok
      · simp at hok
      · simp only [Except.ok.injEq] at hok
        rw [← hok] at hr
        simp only [validRowsFrom, List.mem_filterMap] at hr
        obtain ⟨row, -, hrow⟩ := hr
        obtain ⟨h1, h2⟩ := processDataRow_some _ _ _ row r hrow
        exact ⟨h1, _, h2⟩
  · intro herr
    cases hidx : findHeaderIdx table with
    | none => rfl
    | some i =>
      exfalso
      have hfld := findHeaderIdx_fields table i hidx
      simp only [parseCsvRows, hidx] at herr
      rw [if_neg (by simp [hfld.1, hfld.2])] at herr
      split at herr <;> simp at herr
  · intro hnone
    simp [parseCsvRows, hnone]
  · intro herr
    cases hidx : findHeaderIdx table with
    | none => simp [parseCsvRows, hidx] at herr
    | some i =>
      have hfld := findHeaderIdx_fields table i hidx
      simp only [parseCsvRows, hidx] at herr
      rw [if_neg (by simp [hfld.1, hfld.2])] at herr
      refine ⟨i, rfl, ?_⟩
      by_cases hrows : validRowsFrom table i = []
      · exact hrows
      · rw [if_neg hrows] at herr
        simp at herr
  · rintro ⟨i, hidx, hrows⟩
    have hfld := findHeaderIdx_fields table i hidx
    simp only [parseCsvRows, hidx]
    rw [if_neg (by simp [hfld.1, hfld.2])]
    rw [if_pos hrows]

/-- Witness for C5: a well-formed two-row table parses to one row whose
identifier is nonempty and whose cost comes from numeric parsing; a table
without the required columns is the missing-columns error; a header-only
table with one blank row is the no-valid-rows error. -/
theorem feed_parse_contract_witness :
    (¬("SKU1" : String) = "" ∧ ∃ raw, pyFloat (cleanCost raw) = some (21 / 2)) ∧
    parseCsvRows [["Name", "Price"], ["x", "1"]] = .error .missingColumns ∧
    parseCsvRows [["Part_Num", "Trade_Cost"], ["", ""]] = .error .noValidRows := by
  have hscan : pyFloatScan "10.50".data = some (false, 1050, 2, 0) := by decide
  have hclean : cleanCost "10.50" = "10.50" := by decide
  have hfloat : pyFloat (cleanCost "10.50") = some (21 / 2) := by
    rw [hclean, pyFloat, hscan]
    norm_num
  have hpd : processDataRow 0 1 none ["SKU1", "10.50"] = some ⟨"SKU1", 21 / 2, ""⟩ := by
    have htrim : pyStrip (["SKU1", "10.50"].getD 1 "") = "10.50" := by decide
    have hid : pyStrip (["SKU1", "10.50"].getD 0 "") = "SKU1" := by decide
    simp only [processDataRow]
    rw [if_neg (by decide), hid, htrim, if_neg (by decide), if_neg (by decide), hfloat]
  have hflds : headerFields [["Part_Num", "Trade_Cost"], ["SKU1", "10.50"]] 0 =
      ["Part_Num", "Trade_Cost"] := by decide
  have hrows : validRowsFrom [["Part_Num", "Trade_Cost"], ["SKU1", "10.50"]] 0 =
      [⟨"SKU1", 21 / 2, ""⟩] := by
    have hix1 : List.indexOf "Part_Num" ["Part_Num", "Trade_Cost"] = 0 := by decide
    have hix2 : List.indexOf "Trade_Cost" ["Part_Num", "Trade_Cost"] = 1 := by decide
    simp only [validRowsFrom, hflds, hix1, hix2]
    rw [if_neg (by decide)]
    simp [List.filterMap_cons, hpd]
  have hidx : findHeaderIdx [["Part_Num", "Trade_Cost"], ["SKU1", "10.50"]] =
      some 0 := by decide
  have hok : parseCsvRows [["Part_Num", "Trade_Cost"], ["SKU1", "10.50"]] =
      .ok [⟨"SKU1", 21 / 2, ""⟩] := by
    simp only [parseCsvRows, hidx, hflds]
    rw [if_neg (by decide), hrows, if_neg (by decide)]
  have h1 := ((feed_parse_contract [["Part_Num", "Trade_Cost"], ["SKU1", "10.50"]]).1
      [⟨"SKU1", 21 / 2, ""⟩] hok ⟨"SKU1", 21 / 2, ""⟩ (by simp))
  refine ⟨h1, ?_, ?_⟩
  · exact (feed_parse_contract [["Name", "Price"], ["x", "1"]]).2.1.mpr (by decide)
  · refine (feed_parse_contract [["Part_Num", "Trade_Cost"], ["", ""]]).2.2.1.mpr
      ⟨0, by decide, ?_⟩
    decide

set_option maxHeartbeats 4000000 in
/-- Counterexample for C6 as stated: a cost cell consisting of the plain
one-character pound sign `"£"` (U+00A3) and thousands separators around the
numeric value `1234.50` is *not* cleaned to a parseable numeral — the
cleanup only strips the two-character sequence `"Â£"` — so the row is
skipped rather than included, and a feed whose only row it is fails with
the no-valid-rows error. -/
theorem currency_stripping_counterexample :
    pyFloat "1234.50" = some (2469 / 2) ∧
    cleanCost (poundSign ++ "1,234.50") = poundSign ++ "1234.50" ∧
    pyFloat (cleanCost (poundSign ++ "1,234.50")) = none ∧
    parseCsvRows [["Part_Num", "Trade_Cost"], ["SKU1", poundSign ++ "1,234.50"]] =
      .error .noValidRows := by
  have hscan : pyFloatScan "1234.50".data = some (false, 123450, 2, 0) := by decide
  have h1 : pyFloat "1234.50" = some (2469 / 2) := by
    rw [pyFloat, hscan]
    norm_num
  have h2 : cleanCost (poundSign ++ "1,234.50") = poundSign ++ "1234.50" := by decide
  have h3 : pyFloat (cleanCost (poundSign ++ "1,234.50")) = none := by
    rw [h2]
    have : pyFloatScan (poundSign ++ "1234.50").data = none := by decide
    rw [pyFloat, this]
    rfl
  refine ⟨h1, h2, h3, ?_⟩
  have hpd : processDataRow 0 1 none ["SKU1", poundSign ++ "1,234.50"] = none := by
    have htrim : pyStrip (["SKU1", poundSign ++ "1,234.50"].getD 1 "") =
        poundSign ++ "1,234.50" := by decide
    have hid : pyStrip (["SKU1", poundSign ++ "1,234.50"].getD 0 "") = "SKU1" := by
      decide
    simp only [processDataRow]
    rw [if_neg (by decide), hid, htrim, if_neg (by decide), if_neg (by decide), h3]
  have hflds : headerFields [["Part_Num", "Trade_Cost"],
      ["SKU1", poundSign ++ "1,234.50"]] 0 = ["Part_Num", "Trade_Cost"] := by decide
  have hidx : findHeaderIdx [["Part_Num", "Trade_Cost"],
      ["SKU1", poundSign ++ "1,234.50"]] = some 0 := by decide
  have hrows : validRowsFrom [["Part_Num", "Trade_Cost"],
      ["SKU1", poundSign ++ "1,234.50"]] 0 = [] := by
    have hix1 : List.indexOf "Part_Num" ["Part_Num", "Trade_Cost"] = 0 := by decide
    have hix2 : List.indexOf "Trade_Cost" ["Part_Num", "Trade_Cost"] = 1 := by decide
    simp only [validRowsFrom, hflds, hix1, hix2]
    rw [if_neg (by decide)]
    simp [List.filterMap_cons, hpd]
  simp only [parseCsvRows, hidx, hflds]
  rw [if_neg (by decide), hrows, if_pos rfl]

set_option maxHeartbeats 4000000 in
/-- C6 (amended).  Currency stripping as implemented: the cleanup removes
every occurrence of the two-character mojibake sequence `"Â£"` (U+00C2
U+00A3, the double-encoded pound sign — the only currency marker handled)
and every comma, then strips; any single-row feed whose cost cell cleans to
a numerically parseable value is included with that numeric cost and the
stripped identifier.  A cell marked with the plain `"£"` is not cleaned
(see the counterexample). -/
theorem currency_stripping_amended (part raw : String) (v : ℚ)
    (hpart : pyStrip part ≠ "")
    (hraw : pyFloat (cleanCost (pyStrip raw)) = some v) :
    parseCsvRows [["Part_Num", "Trade_Cost"], [part, raw]] =
      .ok [⟨pyStrip part, v, ""⟩] ∧
    cleanCost (poundMojibake ++ "1,234.50") = "1234.50" := by
  constructor
  · have hpd : processDataRow 0 1 none [part, raw] = some ⟨pyStrip part, v, ""⟩ := by
      simp only [processDataRow]
      rw [if_neg (by norm_num)]
      have hg0 : [part, raw].getD 0 "" = part := rfl
      have hg1 : [part, raw].getD 1 "" = raw := rfl
      rw [hg0, hg1]
      rw [if_neg (by simp [hpart]), if_neg (by simp [hpart]), hraw]
    have hps1 : pyStrip "Part_Num" = "Part_Num" := by decide
    have hps2 : pyStrip "Trade_Cost" = "Trade_Cost" := by decide
    have hflds : headerFields [["Part_Num", "Trade_Cost"], [part, raw]] 0 =
        ["Part_Num", "Trade_Cost"] := by
      simp [headerFields, hps1, hps2]
    have hidx : findHeaderIdx [["Part_Num", "Trade_Cost"], [part, raw]] = some 0 := by
      simp only [findHeaderIdx, List.findIdx?_cons]
      rw [if_pos (by decide)]
    have hrows : validRowsFrom [["Part_Num", "Trade_Cost"], [part, raw]] 0 =
        [⟨pyStrip part, v, ""⟩] := by
      have hix1 : List.indexOf "Part_Num" ["Part_Num", "Trade_Cost"] = 0 := by decide
      have hix2 : List.indexOf "Trade_Cost" ["Part_Num", "Trade_Cost"] = 1 := by decide
      simp only [validRowsFrom, hflds, hix1, hix2]
      rw [if_neg (by decide)]
      simp [List.filterMap_cons, hpd]
    simp only [parseCsvRows, hidx, hflds]
    rw [if_neg (by decide), hrows, if_neg (by simp)]
  · decide

set_option maxHeartbeats 4000000 in
/-- Witness for C6 (amended): the mojibake-marked, comma-separated cell
`"Â£1,234.50"` cleans to `"1234.50"` and the row is included with cost
`1234.50`. -/
theorem currency_stripping_amended_witness :
    parseCsvRows [["Part_Num", "Trade_Cost"],
        ["SKU1", poundMojibake ++ "1,234.50"]] =
      .ok [⟨"SKU1", 2469 / 2, ""⟩] := by
  have hstrip : pyStrip (poundMojibake ++ "1,234.50") =
      poundMojibake ++ "1,234.50" := by decide
  have hclean : cleanCost (poundMojibake ++ "1,234.50") = "1234.50" := by decide
  have hscan : pyFloatScan "1234.50".data = some (false, 123450, 2, 0) := by decide
  have hraw : pyFloat (cleanCost (pyStrip (poundMojibake ++ "1,234.50"))) =
      some (2469 / 2) := by
    rw [hstrip, hclean, pyFloat, hscan]
    norm_num
  have h := (currency_stripping_amended "SKU1" (poundMojibake ++ "1,234.50")
      (2469 / 2) (by decide) hraw).1
  have hid : pyStrip "SKU1" = "SKU1" := by decide
  rw [hid] at h
  exact h

/-- C9 (amended).  Transient-error degradation for the catalog lookup: a
response whose status is neither 401 nor 200, or with a malformed JSON body,
GraphQL-level errors, or a missing connection object, collapses to the
per-row not-found result `(None, None, "")` without raising — so the
orchestrator records the row and continues, as the last conjunct shows at
the loop level; a 401 is surfaced as the distinct `TokenExpiredError`
signal.  Amended: a transport-level timeout is not degraded — it escapes as
an uncaught exception (terminal for the whole run, see the
counterexample). -/
theorem transient_error_degradation (rest : List HttpEvent) (sku : String)
    (mbcf : Bool) (status : ℕ) (body : Option GqlBody) :
    (status ≠ 401 →
      (status ≠ 200 ∨ body = none ∨
        (∃ b, body = some b ∧ (b.hasErrors = true ∨ b.conn = none))) →
      findIdBySku (.resp status body :: rest) sku mbcf = .ok none)
    ∧ findIdBySku (.resp 401 body :: rest) sku mbcf = .error .tokenExpired
    ∧ findIdBySku (.timeout :: rest) sku mbcf = .error .pyException
    ∧ (∀ env : SyncEnv, ∀ oi : Bool, ∀ mv : ℚ, ∀ st : SyncState, ∀ r : FeedRow,
        ∀ rows : List FeedRow,
        st.error = none → env.find st.token r.identifier = .ok none →
        runRows env oi mv st (r :: rows) =
          ((runRows env oi mv
              { st with skusNotFound := st.skusNotFound ++ [r.identifier] } rows).1,
           .findCall st.token r.identifier ::
             (runRows env oi mv
               { st with skusNotFound := st.skusNotFound ++ [r.identifier] }
               rows).2)) := by
  refine ⟨?_, ?_, rfl, ?_⟩
  · intro h401 hfail
    simp only [findIdBySku]
    rw [if_neg h401]
    rcases hfail with h200 | hb | ⟨b, rfl, hbb⟩
    · rw [if_pos h200]
    · subst hb
      by_cases h200 : status ≠ 200
      · rw [if_pos h200]
      · rw [if_neg h200]
    · by_cases h200 : status ≠ 200
      · rw [if_pos h200]
      · rw [if_neg h200]
        rcases hbb with he | hc
        · simp [he]
        · cases hbe : b.hasErrors <;> simp [hbe, hc]
  · simp [findIdBySku]
  · intro env oi mv st r rows herr hfind
    have hfr : findWithRetry env st r.identifier =
        (.next st none, [.findCall st.token r.identifier]) := by
      simp [findWithRetry, hfind]
    have hstep : stepRow env oi mv st r =
        (.next { st with skusNotFound := st.skusNotFound ++ [r.identifier] } (),
         [.findCall st.token r.identifier]) := by
      simp [stepRow, hfr]
    simp [runRows, herr, hstep]

/-- Witness for C9 (amended): a 500 response degrades the lookup to the
not-found result, and a degraded lookup lets the loop proceed to the next
row — here the second row resolves and is updated. -/
theorem transient_error_degradation_witness :
    findIdBySku [.resp 500 none] "A" false = .ok none ∧
    runRows sampleNotFoundEnv false 0 (initState "at" "rt") [⟨"A", 1, ""⟩] =
      (.ok { initState "at" "rt" with skusNotFound := ["A"] },
       [.findCall "at" "A"]) := by
  constructor
  · exact (transient_error_degradation [] "A" false 500 none).1 (by decide)
      (.inl (by decide))
  · have h := (transient_error_degradation [] "A" false 500 none).2.2.2
      sampleNotFoundEnv false 0 (initState "at" "rt") ⟨"A", 1, ""⟩ [] rfl (by rfl)
    simpa [runRows, initState] using h

/-- Counterexample for C9 as stated: on `sampleTimeoutEnv` the first row's
lookup times out at the transport level; the exception is uncaught, the run
terminates exceptionally with no result object at all, the second row is
never processed (the trace holds only the first lookup), and no per-row
not-found outcome is produced — a timeout is not degraded. -/
theorem transient_timeout_counterexample :
    sampleTimeoutEnv.find "at" "A" = .raise ∧
    runSync sampleTimeoutEnv "acc" [⟨"A", 1, ""⟩, ⟨"B", 2, ""⟩] false false
        (9 / 10) none = (.error (), [.findCall "at" "A"]) := by
  constructor
  · rfl
  · norm_num [runSync, runRows, stepRow, findWithRetry, refreshAndRetry,
      getValidAccessToken, SyncEnv.oauth, sampleTimeoutEnv, sampleSyncEnv,
      sampleStore, initState, clampMarkup, findOutcomeOfPages, findIdBySku]
    simp [stateToResult, Except.map]

/-- C2.  Fuzzy resolution tie policy: when the exact pass finds nothing and
fuzzy matching runs with a positive threshold, a match is returned only if
the best similarity score over all candidates reaches the threshold and is
attained by exactly one candidate; whenever two or more candidates share
that best score, the result is the not-found quadruple, never an arbitrary
pick.  Stated for every similarity oracle `ratio`. -/
theorem fuzzy_tie_policy (ratio : String → String → ℚ) (sku : String)
    (products : List CatalogNode) (mbcf : Bool) (θ : ℚ) (hθ : 0 < θ)
    (hex : exactPass sku products mbcf = none) :
    ((resolveFromList ratio sku products mbcf false θ).entryId ≠ none →
      θ ≤ bestScore ratio sku mbcf products ∧
      (products.filter (fun n => candScore ratio sku mbcf n =
        bestScore ratio sku mbcf products)).length = 1)
    ∧ (θ ≤ bestScore ratio sku mbcf products →
       2 ≤ (products.filter (fun n => candScore ratio sku mbcf n =
         bestScore ratio sku mbcf products)).length →
       resolveFromList ratio sku products mbcf false θ = ⟨none, none, false, ""⟩) := by
  have hres : resolveFromList ratio sku products mbcf false θ =
      (match (fzFold ratio sku mbcf θ products).bestId with
       | some i =>
         if (fzFold ratio sku mbcf θ products).tie then ⟨none, none, false, ""⟩
         else ⟨some i, (fzFold ratio sku mbcf θ products).bestCost, true,
               (fzFold ratio sku mbcf θ products).bestName⟩
       | none => ⟨none, none, false, ""⟩) := by
    simp only [resolveFromList, hex, fzFold]
    rw [if_neg (by
      simp only [Bool.false_eq_true, false_or]
      exact not_le.mpr hθ)]
  rcases fzFold_char ratio sku mbcf θ hθ products with
    ⟨hbs, hbid, -, hall⟩ | ⟨hθbs, ⟨m, hm, hms⟩, hub, ⟨i, hbid⟩, htie⟩
  · have hr : resolveFromList ratio sku products mbcf false θ =
        ⟨none, none, false, ""⟩ := by
      rw [hres, hbid]
    constructor
    · intro hne
      rw [hr] at hne
      simp at hne
    · intro _ _
      exact hr
  · have hbest : θ ≤ bestScore ratio sku mbcf products :=
      le_trans hθbs (hms ▸ candScore_le_bestScore ratio sku mbcf products m hm)
    have hbseq := fzFold_bestScore_eq ratio sku mbcf θ hθ products hbest
    rw [hbseq] at htie
    constructor
    · intro hne
      rw [hres, hbid] at hne
      dsimp only at hne
      by_cases ht : (fzFold ratio sku mbcf θ products).tie = true
      · rw [if_pos ht] at hne
        simp at hne
      · refine ⟨hbest, ?_⟩
        have hlt : ¬ 2 ≤ (products.filter (fun n => candScore ratio sku mbcf n =
            bestScore ratio sku mbcf products)).length := fun hc => ht (htie.mpr hc)
        have hge : m ∈ products.filter (fun n => candScore ratio sku mbcf n =
            bestScore ratio sku mbcf products) := by
          rw [List.mem_filter]
          exact ⟨hm, by simp [hms, hbseq]⟩
        have h1 : 1 ≤ (products.filter (fun n => candScore ratio sku mbcf n =
            bestScore ratio sku mbcf products)).length :=
          List.length_pos.mpr (List.ne_nil_of_mem hge)
        omega
    · intro _ hcount
      have ht : (fzFold ratio sku mbcf θ products).tie = true := htie.mpr hcount
      rw [hres, hbid]
      dsimp only
      rw [if_pos ht]

/-- Witness for C2: under the constant similarity oracle both candidates of
`tieNodes` score `1` against the identifier `"X"` while the exact pass
fails, so the resolver reports not found rather than picking either. -/
theorem fuzzy_tie_policy_witness :
    resolveFromList constRatio "X" tieNodes false false 1 =
      ⟨none, none, false, ""⟩ := by
  have hsc1 : candScore constRatio "X" false ⟨"id-1", "Pipe A", some "", some 1⟩ = 1 := by
    decide
  have hsc2 : candScore constRatio "X" false ⟨"id-2", "Pipe B", some "", some 2⟩ = 1 := by
    decide
  have hbestv : bestScore constRatio "X" false tieNodes = 1 := by
    show (List.map (candScore constRatio "X" false) tieNodes).foldl max (-1) = 1
    have hmap : List.map (candScore constRatio "X" false) tieNodes = [1, 1] := by
      show [candScore constRatio "X" false ⟨"id-1", "Pipe A", some "", some 1⟩,
            candScore constRatio "X" false ⟨"id-2", "Pipe B", some "", some 2⟩] = [1, 1]
      rw [hsc1, hsc2]
    rw [hmap]
    show max (max (-1 : ℚ) 1) 1 = 1
    rw [max_eq_right (by norm_num : (-1 : ℚ) ≤ 1), max_self]
  have hcount : 2 ≤ (tieNodes.filter (fun n => candScore constRatio "X" false n =
      bestScore constRatio "X" false tieNodes)).length := by
    have hfil : tieNodes.filter (fun n => candScore constRatio "X" false n =
        bestScore constRatio "X" false tieNodes) = tieNodes := by
      rw [List.filter_eq_self]
      intro n hn
      rcases List.mem_cons.mp hn with rfl | hn
      · simp [hsc1, hbestv]
      · rcases List.mem_singleton.mp hn with rfl
        simp [hsc2, hbestv]
    rw [hfil]
    rfl
  exact (fuzzy_tie_policy constRatio "X" tieNodes false 1 one_pos (by decide)).2
    (le_of_eq hbestv.symm) hcount

/-- Witness for C8: on the sample environment the credential expires 100
seconds from now (inside the 120-second buffer), so the inline refresh fires
and the rotated pair is persisted with the new expiry. -/
theorem getValidToken_contract_witness :
    getValidAccessToken sampleOAuthEnv "acc" =
      (.ok "at2", some ⟨"at2", "rt2", some 3600⟩) := by
  have h := (getValidToken_contract sampleOAuthEnv "acc").2
    ⟨"at", "rt", some 100⟩ (by decide) (by decide) (by decide)
  have h3 := h.2.2.1 100 ⟨"at2", "rt2", some 3600⟩ rfl (by decide) rfl
  simpa using h3

end JobberSync
